import Mathlib

/-!
Verification of the tool-call extraction / execution pipeline and the memory
store of the agent framework (`simple-agent-memory/agent.py` and
`simple-agent-memory/memory_manager.py`).

Texts are modelled as `List Char`.  Python dicts holding JSON-shaped data are
modelled as insertion-ordered association lists.  Python exceptions that the
code does not catch are modelled with `Except`, the error value carrying the
exception message; exceptions caught by the code never show up in a result.
-/

/-- Whitespace recognised by Python's regex class `\s` (ASCII range; the
embedding does not model the non-ASCII Unicode whitespace characters, which
never occur in the texts of interest). -/
def isPyWs (c : Char) : Bool :=
  c == ' ' || c == '\t' || c == '\n' || c == '\r' || c == '\x0b' || c == '\x0c'

/-- Maximal munch of `\s*`: drop the leading whitespace run. -/
def pyDropWs (s : List Char) : List Char := s.dropWhile isPyWs

/-- Strip a trailing whitespace run (used for the tail of a `\s*\]` context and
for Python's `str.strip`). -/
def dropTrailWs (s : List Char) : List Char := (s.reverse.dropWhile isPyWs).reverse

/-- Python's `str.strip()` (ASCII whitespace). -/
def pyStrip (s : List Char) : List Char := dropTrailWs (pyDropWs s)

/-- Match a literal character sequence at the head; on success return the rest. -/
def matchLit : List Char → List Char → Option (List Char)
  | [], s => some s
  | p :: ps, c :: cs => if c == p then matchLit ps cs else none
  | _ :: _, [] => none

/-- Whether `pat` occurs at the head of `s`. -/
def startsWithSeq (pat s : List Char) : Bool := (matchLit pat s).isSome

/-- Whether `pat` occurs as a contiguous subsequence of `s`. -/
def containsSeq (pat : List Char) : List Char → Bool
  | [] => pat.isEmpty
  | c :: t => startsWithSeq pat (c :: t) || containsSeq pat t

/-- A JSON value as produced by Python's `json.loads`: objects are
insertion-ordered string-keyed dicts, arrays are lists.  Numeric literals are
kept as their source token (the embedding never computes with numbers). -/
inductive Json where
  | null
  | bool (b : Bool)
  | num (tok : List Char)
  | str (s : List Char)
  | arr (elems : List Json)
  | obj (fields : List (List Char × Json))

/-- Dict key lookup (`d.get(k)` / `k in d` support): first binding wins;
parsing and the `d[k] = v` update below keep keys unique. -/
def objLookup (fields : List (List Char × Json)) (k : List Char) : Option Json :=
  match fields with
  | [] => none
  | (k2, v) :: rest => if k2 == k then some v else objLookup rest k

/-- Python `d[k] = v` on an insertion-ordered dict: update in place when the
key exists, append otherwise. -/
def objSetItem : List (List Char × Json) → List Char → Json → List (List Char × Json)
  | [], k, v => [(k, v)]
  | (k2, v2) :: rest, k, v =>
    if k2 == k then (k, v) :: rest else (k2, v2) :: objSetItem rest k v

/-- Python `del d[k]`: remove the binding of `k`, keeping the order of the
remaining bindings. -/
def objDelItem : List (List Char × Json) → List Char → List (List Char × Json)
  | [], _ => []
  | (k2, v2) :: rest, k =>
    if k2 == k then rest else (k2, v2) :: objDelItem rest k

/-! ## `json.loads` -/

/-- Whitespace skipped by the JSON grammar between tokens. -/
def isJsonWs (c : Char) : Bool := c == ' ' || c == '\t' || c == '\n' || c == '\r'

/-- Skip inter-token whitespace. -/
def jsonSkipWs (s : List Char) : List Char := s.dropWhile isJsonWs

/-- ASCII decimal digit test. -/
def isDigitCh (c : Char) : Bool := 48 ≤ c.toNat && c.toNat ≤ 57

/-- Value of a hex digit, if any. -/
def hexDigitVal (c : Char) : Option Nat :=
  let n := c.toNat
  if 48 ≤ n && n ≤ 57 then some (n - 48)
  else if 97 ≤ n && n ≤ 102 then some (n - 87)
  else if 65 ≤ n && n ≤ 70 then some (n - 55)
  else none

/-- Decode the body of a JSON string literal after the opening quote: plain
characters (control characters below `0x20` are rejected, as in strict-mode
`json.loads`) and backslash escapes.  `\uXXXX` is decoded to the code point of
the four hex digits (surrogate-pair recombination is not modelled).  Returns
the decoded content and the rest after the closing quote. -/
def parseJsonStringBody : Nat → List Char → Option (List Char × List Char)
  | 0, _ => none
  | _ + 1, [] => none
  | f + 1, c :: rest =>
    if c == '"' then some ([], rest)
    else if c == '\\' then
      match rest with
      | [] => none
      | e :: rest2 =>
        let dec : Option (Char × List Char) :=
          if e == '"' then some ('"', rest2)
          else if e == '\\' then some ('\\', rest2)
          else if e == '/' then some ('/', rest2)
          else if e == 'b' then some ('\x08', rest2)
          else if e == 'f' then some ('\x0c', rest2)
          else if e == 'n' then some ('\n', rest2)
          else if e == 'r' then some ('\r', rest2)
          else if e == 't' then some ('\t', rest2)
          else if e == 'u' then
            match rest2 with
            | h1 :: h2 :: h3 :: h4 :: rest3 =>
              match hexDigitVal h1, hexDigitVal h2, hexDigitVal h3, hexDigitVal h4 with
              | some a, some b, some c3, some d =>
                some (Char.ofNat (((a * 16 + b) * 16 + c3) * 16 + d), rest3)
              | _, _, _, _ => none
            | _ => none
          else none
        match dec with
        | some (ch, rest2) =>
          match parseJsonStringBody f rest2 with
          | some (cs, r) => some (ch :: cs, r)
          | none => none
        | none => none
    else if c.toNat < 32 then none
    else
      match parseJsonStringBody f rest with
      | some (cs, r) => some (c :: cs, r)
      | none => none

/-- Longest run of decimal digits at the head. -/
def takeDigits (s : List Char) : List Char := s.takeWhile isDigitCh

/-- The integer part of a JSON number: `0`, or a nonzero digit followed by
digits (leading zeros are rejected, as by `json.loads`). -/
def parseIntPart (s : List Char) : Option (List Char × List Char) :=
  match s with
  | '0' :: rest => some (['0'], rest)
  | c :: _ =>
    if isDigitCh c then
      let ds := takeDigits s
      some (ds, s.drop ds.length)
    else none
  | [] => none

/-- A JSON number token `-?int(\.digits)?([eE][+-]?digits)?`, returned
verbatim together with the rest of the input. -/
def parseJsonNumber (s : List Char) : Option (List Char × List Char) :=
  let (sign, s1) := match s with
    | '-' :: rest => (['-'], rest)
    | _ => (([] : List Char), s)
  match parseIntPart s1 with
  | none => none
  | some (ip, s2) =>
    let (frac, s3) := match s2 with
      | '.' :: rest =>
        let ds := takeDigits rest
        if ds.isEmpty then (([] : List Char), s2) else ('.' :: ds, rest.drop ds.length)
      | _ => (([] : List Char), s2)
    let (ex, s4) := match s3 with
      | e :: rest =>
        if e == 'e' || e == 'E' then
          let (es, rest2) := match rest with
            | '+' :: r2 => (['+'], r2)
            | '-' :: r2 => (['-'], r2)
            | _ => (([] : List Char), rest)
          let ds := takeDigits rest2
          if ds.isEmpty then (([] : List Char), s3) else (e :: es ++ ds, rest2.drop ds.length)
        else (([] : List Char), s3)
      | [] => (([] : List Char), s3)
    some (sign ++ ip ++ frac ++ ex, s4)

mutual

/-- One JSON value at the head of the input (leading whitespace already
skipped), following the dispatch of Python's `json.loads` scanner: string,
object, array, `null` / `true` / `false`, the non-strict constants `NaN`,
`Infinity`, `-Infinity`, otherwise a number token. -/
def parseJsonValue : Nat → List Char → Option (Json × List Char)
  | 0, _ => none
  | f + 1, s =>
    match s with
    | '"' :: rest =>
      match parseJsonStringBody (rest.length + 1) rest with
      | some (content, r) => some (.str content, r)
      | none => none
    | '{' :: rest =>
      match jsonSkipWs rest with
      | '}' :: r => some (.obj [], r)
      | t => parseJsonMembers f [] t
    | '[' :: rest =>
      match jsonSkipWs rest with
      | ']' :: r => some (.arr [], r)
      | t => parseJsonElements f [] t
    | 'n' :: 'u' :: 'l' :: 'l' :: r => some (.null, r)
    | 't' :: 'r' :: 'u' :: 'e' :: r => some (.bool true, r)
    | 'f' :: 'a' :: 'l' :: 's' :: 'e' :: r => some (.bool false, r)
    | 'N' :: 'a' :: 'N' :: r => some (.num ['N', 'a', 'N'], r)
    | 'I' :: 'n' :: 'f' :: 'i' :: 'n' :: 'i' :: 't' :: 'y' :: r =>
      some (.num "Infinity".data, r)
    | '-' :: 'I' :: 'n' :: 'f' :: 'i' :: 'n' :: 'i' :: 't' :: 'y' :: r =>
      some (.num "-Infinity".data, r)
    | _ =>
      match parseJsonNumber s with
      | some (tok, r) => some (.num tok, r)
      | none => none
termination_by structural f => f

/-- The members of an object after its `{` (positioned at a key), accumulating
parsed bindings; duplicate keys follow dict semantics (`d[k] = v`). -/
def parseJsonMembers : Nat → List (List Char × Json) → List Char → Option (Json × List Char)
  | 0, _, _ => none
  | f + 1, acc, s =>
    match s with
    | '"' :: rest =>
      match parseJsonStringBody (rest.length + 1) rest with
      | some (key, r1) =>
        match jsonSkipWs r1 with
        | ':' :: r2 =>
          match parseJsonValue f (jsonSkipWs r2) with
          | some (v, r3) =>
            let acc2 := objSetItem acc key v
            match jsonSkipWs r3 with
            | ',' :: r4 => parseJsonMembers f acc2 (jsonSkipWs r4)
            | '}' :: r4 => some (.obj acc2, r4)
            | _ => none
          | none => none
        | _ => none
      | none => none
    | _ => none
termination_by structural f => f

/-- The elements of an array after its `[` (positioned at a value). -/
def parseJsonElements : Nat → List Json → List Char → Option (Json × List Char)
  | 0, _, _ => none
  | f + 1, acc, s =>
    match parseJsonValue f s with
    | some (v, r1) =>
      match jsonSkipWs r1 with
      | ',' :: r2 => parseJsonElements f (acc ++ [v]) (jsonSkipWs r2)
      | ']' :: r2 => some (.arr (acc ++ [v]), r2)
      | _ => none
    | none => none
termination_by structural f => f

end

/-- Python's `json.loads`: parse one value, allowing surrounding whitespace and
rejecting trailing garbage.  `none` models `json.JSONDecodeError`.  The fuel
`2 * length + 4` dominates the recursion (every recursive call consumes at
least one input character). -/
def json_loads (s : List Char) : Option Json :=
  match parseJsonValue (2 * s.length + 4) (jsonSkipWs s) with
  | some (v, rest) => if (jsonSkipWs rest).isEmpty then some v else none
  | none => none

/-! ## `json.dumps(..., indent=2, ensure_ascii=False)` -/

/-- Hex digit character (lowercase), for `\u00XX` escapes. -/
def hexDigitCh (n : Nat) : Char :=
  if n < 10 then Char.ofNat (48 + n) else Char.ofNat (87 + n)

/-- Escaping of one character inside a dumped JSON string (`ensure_ascii=False`:
non-ASCII characters pass through verbatim). -/
def jsonEscapeChar (c : Char) : List Char :=
  if c == '"' then ['\\', '"']
  else if c == '\\' then ['\\', '\\']
  else if c == '\n' then ['\\', 'n']
  else if c == '\r' then ['\\', 'r']
  else if c == '\t' then ['\\', 't']
  else if c == '\x08' then ['\\', 'b']
  else if c == '\x0c' then ['\\', 'f']
  else if c.toNat < 32 then
    ['\\', 'u', '0', '0', hexDigitCh (c.toNat / 16), hexDigitCh (c.toNat % 16)]
  else [c]

/-- A dumped JSON string literal. -/
def jsonQuote (s : List Char) : List Char :=
  '"' :: (s.map jsonEscapeChar).foldr (· ++ ·) [] ++ ['"']

/-- `n` spaces of indentation. -/
def indentSp (n : Nat) : List Char := List.replicate n ' '

/-- Comma-newline interleaving of the already-rendered entries of a container
dumped with `indent=2`. -/
def joinCommaNl : List (List Char) → List Char
  | [] => []
  | [x] => x
  | x :: xs => x ++ ',' :: '\n' :: joinCommaNl xs

mutual

/-- `json.dumps(v, indent=2, ensure_ascii=False)` at indentation level `ind`.
Number tokens are emitted verbatim (Python would re-render the parsed numeral;
the two agree on plain integer literals, the only numerals the development
evaluates). -/
def jsonDumpVal (ind : Nat) : Json → List Char
  | .null => "null".data
  | .bool true => "true".data
  | .bool false => "false".data
  | .num tok => tok
  | .str s => jsonQuote s
  | .arr [] => ['[', ']']
  | .arr (e :: es) =>
    '[' :: '\n' :: joinCommaNl (jsonDumpList (ind + 2) (e :: es)) ++
      '\n' :: indentSp ind ++ [']']
  | .obj [] => ['{', '}']
  | .obj (kv :: kvs) =>
    '{' :: '\n' :: joinCommaNl (jsonDumpFields (ind + 2) (kv :: kvs)) ++
      '\n' :: indentSp ind ++ ['}']

/-- The rendered elements of a non-empty array, one per line. -/
def jsonDumpList (ind : Nat) : List Json → List (List Char)
  | [] => []
  | e :: es => (indentSp ind ++ jsonDumpVal ind e) :: jsonDumpList ind es

/-- The rendered `"key": value` members of a non-empty object. -/
def jsonDumpFields (ind : Nat) : List (List Char × Json) → List (List Char)
  | [] => []
  | (k, v) :: kvs =>
    (indentSp ind ++ jsonQuote k ++ ':' :: ' ' :: jsonDumpVal ind v) ::
      jsonDumpFields ind kvs

end

/-- `json.dumps(memories, indent=2, ensure_ascii=False)` as used by
`save_memories`. -/
def json_dumps (v : Json) : List Char := jsonDumpVal 0 v

/-! ## Python `str()` of values returned by `json.loads`

Used by the f-strings of `execute_tool_call` and `completion` when they
interpolate a tool name that extraction produced. -/

/-- Comma-space interleaving used by Python container `repr`. -/
def pyReprJoin : List (List Char) → List Char
  | [] => []
  | [x] => x
  | x :: xs => x ++ ',' :: ' ' :: pyReprJoin xs

mutual

/-- Python `repr` of a `json.loads` result: `None` / `True` / `False`, numeric
tokens verbatim, strings in single quotes (escaping of exotic characters inside
the string is not modelled), lists and dicts in Python literal notation. -/
def pyRepr : Json → List Char
  | .null => "None".data
  | .bool true => "True".data
  | .bool false => "False".data
  | .num tok => tok
  | .str s => '\x27' :: s ++ ['\x27']
  | .arr es => '[' :: pyReprJoin (pyReprList es) ++ [']']
  | .obj fs => '{' :: pyReprJoin (pyReprFields fs) ++ ['}']

/-- Rendered list elements. -/
def pyReprList : List Json → List (List Char)
  | [] => []
  | e :: es => pyRepr e :: pyReprList es

/-- Rendered `'key': value` dict entries. -/
def pyReprFields : List (List Char × Json) → List (List Char)
  | [] => []
  | (k, v) :: fs =>
    ('\x27' :: k ++ '\x27' :: ':' :: ' ' :: pyRepr v) :: pyReprFields fs

end

/-- Python `str()` of a `json.loads` result: a string renders as itself,
everything else as its `repr`. -/
def pyStr : Json → List Char
  | .str s => s
  | v => pyRepr v

/-! ## The five extraction regexes of `BaseAgent.extract_tool_calls`

Each `p<i>MatchAt` decides whether pattern `i` matches at one scan position
(the head of `s`), returning the captured groups (or the whole match, for the
group-less pattern 3) and the input rest after the match end.  The greedy
pieces of the patterns (`\s*`, `[^"]+`, `[^}]*`, `[^\[\]]*`) are each followed
by a piece disjoint from their character class, so their backtracking is
maximal munch; the lazy `.*?` of patterns 4 and 5 is shortest-first search.
The scan drivers below replay `re.findall`: try every position left to right,
and resume after the end of each match. -/

/-- The literal `"name"` (with its quotes) as it occurs inside the patterns. -/
def nameLit : List Char := ['"', 'n', 'a', 'm', 'e', '"']

/-- The literal `"arguments"` (with its quotes). -/
def argumentsLit : List Char := ['"', 'a', 'r', 'g', 'u', 'm', 'e', 'n', 't', 's', '"']

/-- Pattern 1,
`(?<!\[)\s*\{\s*"name"\s*:\s*"([^"]+)"\s*,\s*"arguments"\s*:\s*(\{[^}]*\})\s*\}(?!\])`:
at a position whose preceding character (`prev`) is not `[`, an object
carrying a name and an (un-nested) arguments object.  Groups: the name and the
arguments text. -/
def p1MatchAt (prev : Option Char) (s : List Char) : Option ((List Char × List Char) × List Char) := do
  if prev == some '[' then none else
  let s1 := pyDropWs s
  let s2 ← matchLit ['{'] s1
  let s3 := pyDropWs s2
  let s4 ← matchLit nameLit s3
  let s5 := pyDropWs s4
  let s6 ← matchLit [':'] s5
  let s7 := pyDropWs s6
  let s8 ← matchLit ['"'] s7
  let nm := s8.takeWhile (fun c => c != '"')
  if nm.isEmpty then none else
  let s9 ← matchLit ['"'] (s8.drop nm.length)
  let s10 := pyDropWs s9
  let s11 ← matchLit [','] s10
  let s12 := pyDropWs s11
  let s13 ← matchLit argumentsLit s12
  let s14 := pyDropWs s13
  let s15 ← matchLit [':'] s14
  let s16 := pyDropWs s15
  let s17 ← matchLit ['{'] s16
  let inner := s17.takeWhile (fun c => c != '}')
  let s18 ← matchLit ['}'] (s17.drop inner.length)
  let s19 := pyDropWs s18
  let s20 ← matchLit ['}'] s19
  if s20.head? == some ']' then none else
  some ((nm, '{' :: inner ++ ['}']), s20)

/-- Pattern 2, `(?<!\[)\s*\{\s*"name"\s*:\s*"([^"]+)"\s*\}(?!\])`: an object
carrying only a name.  Group: the name. -/
def p2MatchAt (prev : Option Char) (s : List Char) : Option (List Char × List Char) := do
  if prev == some '[' then none else
  let s1 := pyDropWs s
  let s2 ← matchLit ['{'] s1
  let s3 := pyDropWs s2
  let s4 ← matchLit nameLit s3
  let s5 := pyDropWs s4
  let s6 ← matchLit [':'] s5
  let s7 := pyDropWs s6
  let s8 ← matchLit ['"'] s7
  let nm := s8.takeWhile (fun c => c != '"')
  if nm.isEmpty then none else
  let s9 ← matchLit ['"'] (s8.drop nm.length)
  let s10 := pyDropWs s9
  let s11 ← matchLit ['}'] s10
  if s11.head? == some ']' then none else
  some (nm, s11)

/-- Pattern 3, `\[\s*\{[^\[\]]*"name"[^\[\]]*\}\s*\]`, which has no group (its
`re.findall` yields the whole match): after `[ \s* {`, the bracket-free run up
to the next bracket must be terminated by `]` and must consist — after its
trailing whitespace is removed — of a body that ends in `}` and contains the
literal `"name"` before that `}`.  Returns the whole matched text. -/
def p3MatchAt (s : List Char) : Option (List Char × List Char) := do
  let s1 ← matchLit ['['] s
  let ws := s1.takeWhile isPyWs
  let s2 ← matchLit ['{'] (s1.drop ws.length)
  let run := s2.takeWhile (fun c => c != '[' && c != ']')
  match s2.drop run.length with
  | ']' :: r =>
    let core := dropTrailWs run
    match core.getLast? with
    | some '}' =>
      if containsSeq nameLit core.dropLast then
        some ('[' :: ws ++ '{' :: run ++ [']'], r)
      else none
    | _ => none
  | _ => none

/-- The lazy search of pattern 4's `(\{.*?\})\s*\)` after its `{`: at each
step, first try to close (a `}` here, then `\s*` and `)`), otherwise absorb
one more character into the group — which `.` (no `re.DOTALL`) forbids to be a
newline.  Returns the group content and the rest after `)`. -/
def p4Lazy : Nat → List Char → Option (List Char × List Char)
  | 0, _ => none
  | f + 1, s =>
    match s with
    | [] => none
    | c :: t =>
      let close : Option (List Char × List Char) :=
        if c == '}' then
          match matchLit [')'] (pyDropWs t) with
          | some r => some ([], r)
          | none => none
        else none
      match close with
      | some res => some res
      | none =>
        if c == '\n' then none
        else
          match p4Lazy f t with
          | some (cs, r) => some (c :: cs, r)
          | none => none

/-- Pattern 4, `\["([^"]+)"\]\(\s*(\{.*?\})\s*\)`: the bracket-call form.
Groups: the bracketed name and the parenthesised JSON text. -/
def p4MatchAt (s : List Char) : Option ((List Char × List Char) × List Char) := do
  let s1 ← matchLit ['[', '"'] s
  let nm := s1.takeWhile (fun c => c != '"')
  if nm.isEmpty then none else
  let s2 ← matchLit ['"', ']', '('] (s1.drop nm.length)
  let s3 := pyDropWs s2
  let s4 ← matchLit ['{'] s3
  match p4Lazy (s4.length + 1) s4 with
  | some (content, r) => some ((nm, '{' :: content ++ ['}']), r)
  | none => none

/-- The lazy search of pattern 5's `(\{.*?\})\s*</tool_call>` after its `{`:
as for pattern 4, but the close is `}` `\s*` `</tool_call>` and `re.DOTALL`
lets the group absorb newlines. -/
def p5Lazy : Nat → List Char → Option (List Char × List Char)
  | 0, _ => none
  | f + 1, s =>
    match s with
    | [] => none
    | c :: t =>
      let close : Option (List Char × List Char) :=
        if c == '}' then
          match matchLit "</tool_call>".data (pyDropWs t) with
          | some r => some ([], r)
          | none => none
        else none
      match close with
      | some res => some res
      | none =>
        match p5Lazy f t with
        | some (cs, r) => some (c :: cs, r)
        | none => none

/-- Pattern 5, `<tool_call>\s*(\{.*?\})\s*</tool_call>` with `re.DOTALL`.
Group: the delimited JSON text. -/
def p5MatchAt (s : List Char) : Option (List Char × List Char) := do
  let s1 ← matchLit "<tool_call>".data s
  let s2 := pyDropWs s1
  let s3 ← matchLit ['{'] s2
  match p5Lazy (s3.length + 1) s3 with
  | some (content, r) => some ('{' :: content ++ ['}'], r)
  | none => none

/-- `re.findall` for the look-behind patterns 1 and 2: try the matcher at every
position left to right (carrying the preceding character for `(?<!\[)`),
resuming after each match.  Both patterns end every match with their final `}`
literal, so the character preceding the resume position is `}`.  The fuel
dominates the scan since every step consumes at least one character. -/
def scanPrev (matchAt : Option Char → List Char → Option (α × List Char)) :
    Nat → Option Char → List Char → List α
  | 0, _, _ => []
  | f + 1, prev, s =>
    match matchAt prev s with
    | some (g, rest) => g :: scanPrev matchAt f (some '}') rest
    | none =>
      match s with
      | [] => []
      | c :: t => scanPrev matchAt f (some c) t

/-- `re.findall` for the look-behind-free patterns 3, 4 and 5. -/
def scanPlain (matchAt : List Char → Option (α × List Char)) :
    Nat → List Char → List α
  | 0, _ => []
  | f + 1, s =>
    match matchAt s with
    | some (g, rest) => g :: scanPlain matchAt f rest
    | none =>
      match s with
      | [] => []
      | _ :: t => scanPlain matchAt f t

/-! ## `BaseAgent.extract_tool_calls` -/

/-- A tool-call dictionary, as the Python code builds it: a `name` / `arguments`
dict for the regex-built calls, or a parsed JSON object passed through for the
array / bracket / tagged forms. -/
abbrev ToolCall := List (List Char × Json)

/-- The dict key `name`. -/
def nameKey : List Char := ['n', 'a', 'm', 'e']

/-- The dict key `arguments`. -/
def argumentsKey : List Char := ['a', 'r', 'g', 'u', 'm', 'e', 'n', 't', 's']

/-- `{'name': tool_name, 'arguments': arguments}` as built for patterns 1, 2
and the pattern-4 fallback. -/
def mkCall (nm : List Char) (args : Json) : ToolCall :=
  [(nameKey, Json.str nm), (argumentsKey, args)]

/-- `message.replace('`', '"')`: the quote normalisation applied before any
pattern is scanned. -/
def normalizeQuotes (s : List Char) : List Char :=
  s.map (fun c => if c == Char.ofNat 96 then '"' else c)

/-- The loop body for a pattern-1 match
(`json.loads(args_str) if args_str.strip() != '{}' else {}` under
`try/except JSONDecodeError`): parse the captured arguments, falling back to
the empty dict when the capture is exactly `{}` after stripping or when
parsing fails. -/
def p1Call (g : List Char × List Char) : ToolCall :=
  if pyStrip g.2 == ['{', '}'] then mkCall g.1 (Json.obj [])
  else
    match json_loads g.2 with
    | some j => mkCall g.1 j
    | none => mkCall g.1 (Json.obj [])

/-- `any(tc['name'] == tool_name for tc in tool_calls)`: at its use site every
accumulated call carries a string under `name` (patterns 1 and 2 build only
such calls), so the Python `==` is string equality. -/
def nameAlreadyFound (acc : List ToolCall) (nm : List Char) : Bool :=
  acc.any (fun tc =>
    match objLookup tc nameKey with
    | some (Json.str s) => s == nm
    | _ => false)

/-- The pattern-2 loop: append an empty-arguments call for each captured name
that no call accumulated so far (pattern 1's calls, then pattern 2's own
earlier additions) already carries. -/
def p2Fold (acc : List ToolCall) : List (List Char) → List ToolCall
  | [] => acc
  | nm :: rest =>
    if nameAlreadyFound acc nm then p2Fold acc rest
    else p2Fold (acc ++ [mkCall nm (Json.obj [])]) rest

/-- `if 'arguments' not in item: item['arguments'] = {}`. -/
def ensureArguments (fields : List (List Char × Json)) : List (List Char × Json) :=
  if (objLookup fields argumentsKey).isSome then fields
  else objSetItem fields argumentsKey (Json.obj [])

/-- The loop body for a pattern-3 match: parse the whole matched text; a list
contributes each of its dict elements that carry a `name` key (defaulting
their `arguments`), a dict with a `name` key contributes itself; parse failure
contributes nothing (`except: continue`). -/
def p3Process (m : List Char) : List ToolCall :=
  match json_loads m with
  | some (Json.arr items) =>
    items.filterMap (fun item =>
      match item with
      | Json.obj fields =>
        if (objLookup fields nameKey).isSome then some (ensureArguments fields) else none
      | _ => none)
  | some (Json.obj fields) =>
    if (objLookup fields nameKey).isSome then [ensureArguments fields] else []
  | some _ => []
  | none => []

/-- The loop body for a pattern-4 match: parse the parenthesised JSON; a dict
with a `name` key contributes itself (arguments defaulted); any other parse
result contributes nothing; parse failure falls back to an empty-arguments
call built from the bracket-captured name. -/
def p4Process (g : List Char × List Char) : List ToolCall :=
  match json_loads g.2 with
  | some (Json.obj fields) =>
    if (objLookup fields nameKey).isSome then [ensureArguments fields] else []
  | some _ => []
  | none => [mkCall g.1 (Json.obj [])]

/-- The loop body for a pattern-5 match: parse the tagged JSON; a dict with a
`name` key contributes itself (arguments defaulted); anything else, including
parse failure, contributes nothing. -/
def p5Process (m : List Char) : List ToolCall :=
  match json_loads m with
  | some (Json.obj fields) =>
    if (objLookup fields nameKey).isSome then [ensureArguments fields] else []
  | some _ => []
  | none => []

/-- `BaseAgent.extract_tool_calls`: normalise backticks to double quotes, then
run the five pattern loops in order over the same normalised text, each
appending to the accumulated call list (pattern 2 also consults it for its
duplicate check). -/
def extract_tool_calls (message : List Char) : List ToolCall :=
  let msg := normalizeQuotes message
  let fuel := msg.length + 1
  let afterP1 := (scanPrev p1MatchAt fuel none msg).map p1Call
  let afterP2 := p2Fold afterP1 (scanPrev p2MatchAt fuel none msg)
  let p3 := (scanPlain p3MatchAt fuel msg).foldr (fun m acc => p3Process m ++ acc) []
  let p4 := (scanPlain p4MatchAt fuel msg).foldr (fun g acc => p4Process g ++ acc) []
  let p5 := (scanPlain p5MatchAt fuel msg).foldr (fun m acc => p5Process m ++ acc) []
  afterP2 ++ p3 ++ p4 ++ p5

/-! ### The same extraction with its exception flow made explicit

`extract_tool_calls_exc` re-runs the five loops in the `Except` monad with
`json.loads` as a fallible operation and the `try/except json.JSONDecodeError`
handlers exactly where the source places them; an uncaught exception would
surface as `Except.error`. -/

/-- `json.loads` as a fallible call: `none` becomes a raised
`json.JSONDecodeError`. -/
def json_loads_exc (s : List Char) : Except (List Char) Json :=
  match json_loads s with
  | some j => .ok j
  | none => .error "JSONDecodeError".data

/-- Pattern-1 loop body with its handler: the `try` parses the arguments, the
`except JSONDecodeError` falls back to the empty dict. -/
def p1CallExc (g : List Char × List Char) : Except (List Char) ToolCall :=
  if pyStrip g.2 == ['{', '}'] then .ok (mkCall g.1 (Json.obj []))
  else
    match json_loads_exc g.2 with
    | .ok j => .ok (mkCall g.1 j)
    | .error _ => .ok (mkCall g.1 (Json.obj []))

/-- Pattern-3 loop body with its handler (`except: continue`). -/
def p3ProcessExc (m : List Char) : Except (List Char) (List ToolCall) :=
  match json_loads_exc m with
  | .ok (Json.arr items) =>
    .ok (items.filterMap (fun item =>
      match item with
      | Json.obj fields =>
        if (objLookup fields nameKey).isSome then some (ensureArguments fields) else none
      | _ => none))
  | .ok (Json.obj fields) =>
    .ok (if (objLookup fields nameKey).isSome then [ensureArguments fields] else [])
  | .ok _ => .ok []
  | .error _ => .ok []

/-- Pattern-4 loop body with its handler (fallback call on parse failure). -/
def p4ProcessExc (g : List Char × List Char) : Except (List Char) (List ToolCall) :=
  match json_loads_exc g.2 with
  | .ok (Json.obj fields) =>
    .ok (if (objLookup fields nameKey).isSome then [ensureArguments fields] else [])
  | .ok _ => .ok []
  | .error _ => .ok [mkCall g.1 (Json.obj [])]

/-- Pattern-5 loop body with its handler (`except: continue`). -/
def p5ProcessExc (m : List Char) : Except (List Char) (List ToolCall) :=
  match json_loads_exc m with
  | .ok (Json.obj fields) =>
    .ok (if (objLookup fields nameKey).isSome then [ensureArguments fields] else [])
  | .ok _ => .ok []
  | .error _ => .ok []

/-- Run a pattern loop over its match list, concatenating the contributions
and propagating any escaped exception. -/
def concatLoopExc (body : α → Except (List Char) (List ToolCall)) :
    List α → Except (List Char) (List ToolCall)
  | [] => .ok []
  | m :: rest => do
    let cs ← body m
    let tail ← concatLoopExc body rest
    .ok (cs ++ tail)

/-- `extract_tool_calls` with the exception flow explicit. -/
def extract_tool_calls_exc (message : List Char) : Except (List Char) (List ToolCall) := do
  let msg := normalizeQuotes message
  let fuel := msg.length + 1
  let afterP1 ← concatLoopExc (fun g => (p1CallExc g).map ([·])) (scanPrev p1MatchAt fuel none msg)
  let afterP2 := p2Fold afterP1 (scanPrev p2MatchAt fuel none msg)
  let p3 ← concatLoopExc p3ProcessExc (scanPlain p3MatchAt fuel msg)
  let p4 ← concatLoopExc p4ProcessExc (scanPlain p4MatchAt fuel msg)
  let p5 ← concatLoopExc p5ProcessExc (scanPlain p5MatchAt fuel msg)
  .ok (afterP2 ++ p3 ++ p4 ++ p5)

/-! ## `BaseAgent.execute_tool_call`

A registered tool is modelled as a function from the keyword-argument dict the
executor splats into it to `Except`: `.ok` is the Python return value already
rendered by the executor's `str(result)`, `.error e` is a raised exception
with message `e` (binding failures from mismatched keyword names included). -/

/-- A registered tool. -/
abbrev ToolFn := List (List Char × Json) → Except (List Char) (List Char)

/-- `self.tool_mapping`: the name-keyed registry built at construction. -/
abbrev ToolRegistry := List (List Char × ToolFn)

/-- Registry lookup. -/
def registryLookup (registry : ToolRegistry) (nm : List Char) : Option ToolFn :=
  match registry with
  | [] => none
  | (k, f) :: rest => if k == nm then some f else registryLookup rest nm

/-- Whether a `json.loads` value is hashable in Python (`x in d` hashes `x`;
lists and dicts raise `TypeError`). -/
def hashableJson : Json → Bool
  | .arr _ => false
  | .obj _ => false
  | _ => true

/-- The fixed reply for a call without a `name` field. -/
def invalidFormatMsg : List Char := "Error: Invalid tool call format".data

/-- The message of the `TypeError` raised when the membership test hashes an
unhashable name value. -/
def unhashableTypeError : List Char := "TypeError: unhashable type".data

/-- The message of the `TypeError` raised by `f(**arguments)` when `arguments`
is not a mapping. -/
def starStarTypeError : List Char := "argument after ** must be a mapping".data

/-- `f"Error: Unknown tool '{tool_name}'"`. -/
def unknownToolMsg (rendered : List Char) : List Char :=
  "Error: Unknown tool \x27".data ++ rendered ++ ['\x27']

/-- `f"Error executing {tool_name}: {str(e)}"`. -/
def executingErrorMsg (rendered msg : List Char) : List Char :=
  "Error executing ".data ++ rendered ++ ':' :: ' ' :: msg

/-- `BaseAgent.execute_tool_call`.  `Except.error` models an exception that
escapes the method (only the unhashable-name `TypeError` of the membership
test can); every failure the method handles itself comes back as `.ok` of a
readable string, exactly as the Python returns strings. -/
def execute_tool_call (registry : ToolRegistry) (callinfo : ToolCall) :
    Except (List Char) (List Char) :=
  match objLookup callinfo nameKey with
  | none => .ok invalidFormatMsg
  | some nameVal =>
    let args := (objLookup callinfo argumentsKey).getD (Json.obj [])
    if hashableJson nameVal then
      match nameVal with
      | Json.str toolName =>
        match registryLookup registry toolName with
        | none => .ok (unknownToolMsg toolName)
        | some f =>
          match args with
          | Json.obj kwargs =>
            match f kwargs with
            | .ok r => .ok r
            | .error e => .ok (executingErrorMsg toolName e)
          | _ => .ok (executingErrorMsg toolName starStarTypeError)
      | _ =>
        -- a hashable non-string name is never a key of the string-keyed registry
        .ok (unknownToolMsg (pyStr nameVal))
    else .error unhashableTypeError

/-! ## `BaseAgent.completion`

The model backend (`self.agent.run` over both generations) is an oracle
function from the prompt text to the reply text; `str(result.data)` is the
oracle's output.  Debug printing is ignored.  A `None` history argument is the
empty history. -/

/-- The dict key `role`. -/
def roleKey : List Char := ['r', 'o', 'l', 'e']

/-- The dict key `content`. -/
def contentKey : List Char := ['c', 'o', 'n', 't', 'e', 'n', 't']

/-- A transcript entry, as the Python dicts `{"role": …, "content": …}` and
`{"role": "tool", "name": …, "content": …}`. -/
abbrev TranscriptEntry := List (List Char × Json)

/-- `{"role": role, "content": content}`. -/
def mkMsg (role content : List Char) : TranscriptEntry :=
  [(roleKey, Json.str role), (contentKey, Json.str content)]

/-- `{"role": "tool", "name": tool_call.get('name', 'unknown'), "content":
tool_result}`. -/
def toolEntry (c : ToolCall) (result : List Char) : TranscriptEntry :=
  [(roleKey, Json.str "tool".data),
   (nameKey, (objLookup c nameKey).getD (Json.str "unknown".data)),
   (contentKey, Json.str result)]

/-- The per-call half of the tool loop: execute every extracted call in order,
collecting `(call, result)` pairs; an exception escaping `execute_tool_call`
aborts the loop (and `completion` with it).  The Python loop appends each
tool-role transcript entry in the same iteration that runs the call;
`completion` below appends the identical entry list (one `toolEntry` per
collected pair, in order) after the loop, which leaves every observable value
unchanged. -/
def run_tool_loop (registry : ToolRegistry) :
    List ToolCall → Except (List Char) (List (ToolCall × List Char))
  | [] => .ok []
  | c :: rest => do
    let r ← execute_tool_call registry c
    let tail ← run_tool_loop registry rest
    .ok ((c, r) :: tail)

/-- One rendered results line, `Tool '<name>' returned: <result>`. -/
def toolLineText (nameVal : Json) (result : List Char) : List Char :=
  "Tool \x27".data ++ pyStr nameVal ++ "\x27 returned: ".data ++ result

/-- `f"Tool '{tc['call']['name']}' returned: {tc['result']}"`; the subscript
raises `KeyError` on a call without a `name` key. -/
def toolResultLine (c : ToolCall) (result : List Char) : Except (List Char) (List Char) :=
  match objLookup c nameKey with
  | some v => .ok (toolLineText v result)
  | none => .error "KeyError: \x27name\x27".data

/-- `"\n".join(...)`. -/
def joinNl : List (List Char) → List Char
  | [] => []
  | [x] => x
  | x :: xs => x ++ '\n' :: joinNl xs

/-- The fixed instruction appended below the tool results. -/
def followUpInstruction : List Char :=
  "\n\nNow provide your response to the user based on these tool results.".data

/-- The list comprehension rendering one results line per executed call. -/
def buildLines : List (ToolCall × List Char) → Except (List Char) (List (List Char))
  | [] => .ok []
  | p :: rest => do
    let line ← toolResultLine p.1 p.2
    let tail ← buildLines rest
    .ok (line :: tail)

/-- The follow-up prompt built from the executed calls. -/
def buildFollowUp (executed : List (ToolCall × List Char)) : Except (List Char) (List Char) := do
  let lines ← buildLines executed
  .ok (joinNl lines ++ followUpInstruction)

/-- The dictionary `completion` returns. -/
structure CompletionResult where
  response : List Char
  history : List TranscriptEntry
  tool_calls_executed : List (ToolCall × List Char)

/-- `BaseAgent.completion`: append the user message, run the first generation
on the user message alone, append the assistant reply, extract tool calls from
it; with no calls return the reply, otherwise execute every call, append the
tool entries, run the second generation on the results prompt, append and
return its reply. -/
def completion (model : List Char → List Char) (registry : ToolRegistry)
    (message role : List Char) (message_history : List TranscriptEntry) :
    Except (List Char) CompletionResult :=
  let h1 := message_history ++ [mkMsg role message]
  let lastmsg := model message
  let h2 := h1 ++ [mkMsg "assistant".data lastmsg]
  let tool_calls := extract_tool_calls lastmsg
  if tool_calls.isEmpty then .ok ⟨lastmsg, h2, []⟩
  else do
    let executed ← run_tool_loop registry tool_calls
    let h3 := h2 ++ executed.map (fun p => toolEntry p.1 p.2)
    let followUp ← buildFollowUp executed
    let finalResponse := model followUp
    let h4 := h3 ++ [mkMsg "assistant".data finalResponse]
    .ok ⟨finalResponse, h4, executed⟩

/-! ## `MemoryManager`

The backing file is `none` when absent and `some content` otherwise; a write
replaces the state wholesale. -/

/-- The dict key `facts`. -/
def factsKey : List Char := "facts".data

/-- The dict key `preferences`. -/
def preferencesKey : List Char := "preferences".data

/-- The dict key `conversations`. -/
def conversationsKey : List Char := "conversations".data

/-- The empty memory structure returned for a missing or unparsable file. -/
def emptyMemory : Json :=
  Json.obj [(factsKey, .arr []), (preferencesKey, .obj []), (conversationsKey, .arr [])]

/-- `MemoryManager.load_memories`: read and parse the file; a missing file
(`FileNotFoundError`) or unparsable content (`json.JSONDecodeError`) yields
the empty structure.  Total: both handled exceptions are the only ones the
text-level model can raise. -/
def load_memories (file : Option (List Char)) : Json :=
  match file with
  | none => emptyMemory
  | some content =>
    match json_loads content with
    | some j => j
    | none => emptyMemory

/-- `MemoryManager.save_memories`: the new file content. -/
def save_memories (memories : Json) : Option (List Char) :=
  some (json_dumps memories)

/-- `MemoryManager.remove_preference`: load, test `key in
memories["preferences"]`, and either delete-and-save (returning `True`) or
leave the file untouched (returning `False`).  `Except.error` models the
uncaught exceptions Python would raise when the loaded document is not
dict-shaped (`TypeError`/`KeyError` on the subscript, `TypeError` when `in` or
`del` hits a non-container `preferences` value). -/
def remove_preference (file : Option (List Char)) (key : List Char) :
    Except (List Char) (Bool × Option (List Char)) :=
  let memories := load_memories file
  match memories with
  | Json.obj mfields =>
    match objLookup mfields preferencesKey with
    | none => .error "KeyError: \x27preferences\x27".data
    | some prefs =>
      let present : Except (List Char) Bool :=
        match prefs with
        | Json.obj pfields => .ok (objLookup pfields key).isSome
        | Json.str s => .ok (containsSeq key s)
        | Json.arr xs => .ok (xs.any (fun x =>
            match x with
            | Json.str s => s == key
            | _ => false))
        | _ => .error "TypeError: argument of type is not iterable".data
      match present with
      | .error e => .error e
      | .ok true =>
        match prefs with
        | Json.obj pfields =>
          let memories2 := Json.obj (objSetItem mfields preferencesKey
            (Json.obj (objDelItem pfields key)))
          .ok (true, save_memories memories2)
        | _ => .error "TypeError: object does not support item deletion".data
      | .ok false => .ok (false, file)
  | _ => .error "TypeError: indices must not be str".data

/-! ## Standalone fragments for the pattern-1 analysis

`standaloneFragment N B` is the text `{"name": "N", "arguments": {B}}`.  The
character classes below carve out names and argument bodies that cannot
collide with any of the five patterns elsewhere in the fragment: the body may
not contain braces (pattern 1 cannot capture past a brace — that is the
nested-arguments counterexample), brackets or `<` (which could open the
array/bracket/tagged forms), or a backtick (which normalisation would turn
into a quote); a name additionally may not contain quotes (it is captured by
`[^"]+`) or whitespace. -/

/-- Characters allowed in the arguments body of a standalone fragment. -/
def bodyOK (c : Char) : Bool :=
  !(c == '{') && !(c == '}') && !(c == '[') && !(c == ']') && !(c == '<') &&
    !(c == Char.ofNat 96)

/-- Characters allowed in the name of a standalone fragment. -/
def nameOK (c : Char) : Bool := bodyOK c && !(c == '"') && !(isPyWs c)

/-- The standalone fragment `{"name": "N", "arguments": {B}}`. -/
def standaloneFragment (N B : List Char) : List Char :=
  '{' :: '"' :: 'n' :: 'a' :: 'm' :: 'e' :: '"' :: ':' :: ' ' :: '"' ::
    (N ++ '"' :: ',' :: ' ' :: '"' :: 'a' :: 'r' :: 'g' :: 'u' :: 'm' :: 'e' ::
      'n' :: 't' :: 's' :: '"' :: ':' :: ' ' :: '{' ::
        (B ++ '}' :: '}' :: []))

theorem json_loads_ck1 :
    json_loads "\x7b\"a\": 1, \"b\": [true, null]\x7d".data =
      some (.obj [("a".data, .num ['1']), ("b".data, .arr [.bool true, .null])]) := rfl

theorem json_loads_ck2 : json_loads "\x7b\"a\": \x7b\"b\": 1".data = none := rfl

theorem dumps_ck :
    json_dumps (.obj [("facts".data, .arr []), ("preferences".data, .obj [("a".data, .num ['1'])]), ("conversations".data, .arr [])]) =
      "\x7b\n  \"facts\": [],\n  \"preferences\": \x7b\n    \"a\": 1\n  \x7d,\n  \"conversations\": []\n\x7d".data := rfl

theorem pystr_ck : pyStr (.obj [("k".data, .arr [.bool true, .null])]) = "\x7b\x27k\x27: [True, None]\x7d".data := rfl

/-! ## Claim C2: the tagged end-to-end extraction example -/

/-- C2 counterexample: on the input
`<tool_call>{"name": "getCurrentTime", "arguments": {}}</tool_call>` the
extraction does NOT yield a one-element list — the standalone pattern also
matches the tagged content, so the list has two elements. -/
theorem C2_tagged_single_call_counterexample :
    (extract_tool_calls
      "<tool_call>\x7b\"name\": \"getCurrentTime\", \"arguments\": \x7b\x7d\x7d</tool_call>".data).length
      = 2 ∧
    extract_tool_calls
      "<tool_call>\x7b\"name\": \"getCurrentTime\", \"arguments\": \x7b\x7d\x7d</tool_call>".data
      ≠ [mkCall "getCurrentTime".data (Json.obj [])] := by
  refine ⟨rfl, fun h => ?_⟩
  have hlen := congrArg List.length h
  have h2 : (extract_tool_calls
      "<tool_call>\x7b\"name\": \"getCurrentTime\", \"arguments\": \x7b\x7d\x7d</tool_call>".data).length
      = 2 := rfl
  rw [h2] at hlen
  simp at hlen

/-- C2 (amended): the tagged input yields exactly two identical ToolCalls with
name `getCurrentTime` and empty arguments — one from the standalone
JSON-with-arguments pattern, which also matches the fragment between the tags,
and one from the tagged pattern. -/
theorem C2_tagged_extraction_amended :
    extract_tool_calls
      "<tool_call>\x7b\"name\": \"getCurrentTime\", \"arguments\": \x7b\x7d\x7d</tool_call>".data =
      [mkCall "getCurrentTime".data (Json.obj []),
       mkCall "getCurrentTime".data (Json.obj [])] := rfl

/-! ## Claim C1: standalone fragments (concrete part) -/

/-- C1 counterexample: for the nested arguments object
`A = {"a": {"b": 1}}` (a well-formed JSON object), the standalone fragment
`{"name": "f", "arguments": A}` yields one ToolCall whose arguments are the
empty dict, not `A`: the `[^}]*`-based capture cannot span `A`'s inner brace,
so the captured text is unparsable and the loop falls back to `{}`. -/
theorem C1_nested_arguments_counterexample :
    json_loads "\x7b\"a\": \x7b\"b\": 1\x7d\x7d".data =
      some (Json.obj [("a".data, Json.obj [("b".data, Json.num ['1'])])]) ∧
    extract_tool_calls "\x7b\"name\": \"f\", \"arguments\": \x7b\"a\": \x7b\"b\": 1\x7d\x7d\x7d".data =
      [mkCall "f".data (Json.obj [])] ∧
    Json.obj [] ≠ Json.obj [("a".data, Json.obj [("b".data, Json.num ['1'])])] := by
  refine ⟨rfl, rfl, fun h => ?_⟩
  have := congrArg (fun j => match j with | Json.obj l => l.length | _ => 0) h
  simp at this

/-! ## Claim C4: name fields of extracted calls (concrete part) -/

/-- C4 counterexample: the JSON-array form accepts a call whose `name` value
is the empty string — `[{"name": ""}]` yields exactly one ToolCall and its
name is `""`, so extraction does not guarantee non-empty names. -/
theorem C4_empty_name_counterexample :
    extract_tool_calls "[\x7b\"name\": \"\"\x7d]".data =
      [[(nameKey, Json.str []), (argumentsKey, Json.obj [])]] ∧
    objLookup [(nameKey, Json.str []), (argumentsKey, Json.obj [])] nameKey =
      some (Json.str "".data) := ⟨rfl, rfl⟩

/-! ## Claim C5: `execute_tool_call` -/

/-- C5 counterexample: a call descriptor whose `name` value is a dict makes
`execute_tool_call` raise — the membership test `tool_name not in
self.tool_mapping` hashes the unhashable value and the resulting `TypeError`
stands outside the method's `try`, so it escapes.  So the method does NOT
return a string for every call descriptor and registry. -/
theorem C5_unhashable_name_counterexample :
    execute_tool_call [] [(nameKey, Json.obj [])] = .error unhashableTypeError := rfl

/-- C5 (amended): for every call descriptor whose `name` value, when present,
is hashable (in particular for every string-named descriptor),
`execute_tool_call` returns a string and never raises: a descriptor without a
`name` key gets the fixed invalid-format string; a string name absent from the
registry gets the string naming it as an unknown tool; and a registered
function that raises gets its message wrapped in the executing-error string. -/
theorem C5_soft_failure_amended (registry : ToolRegistry) (callinfo : ToolCall) :
    (objLookup callinfo nameKey = none →
      execute_tool_call registry callinfo = .ok invalidFormatMsg) ∧
    (∀ nm, objLookup callinfo nameKey = some (Json.str nm) →
      registryLookup registry nm = none →
      execute_tool_call registry callinfo = .ok (unknownToolMsg nm)) ∧
    (∀ nm f kwargs e, objLookup callinfo nameKey = some (Json.str nm) →
      registryLookup registry nm = some f →
      objLookup callinfo argumentsKey = some (Json.obj kwargs) →
      f kwargs = .error e →
      execute_tool_call registry callinfo = .ok (executingErrorMsg nm e)) ∧
    (∀ nv, objLookup callinfo nameKey = some nv → hashableJson nv = true →
      ∃ r, execute_tool_call registry callinfo = .ok r) := by
  refine ⟨fun h => ?_, fun nm h hreg => ?_, fun nm f kwargs e h hreg hargs hf => ?_,
    fun nv h hh => ?_⟩
  · simp [execute_tool_call, h]
  · simp [execute_tool_call, h, hashableJson, hreg]
  · simp [execute_tool_call, h, hashableJson, hreg, hargs, hf]
  · cases nv with
    | null => simp [execute_tool_call, h, hashableJson]
    | bool b => simp [execute_tool_call, h, hashableJson]
    | num t => simp [execute_tool_call, h, hashableJson]
    | str nm =>
      simp only [execute_tool_call, h, hashableJson, if_true]
      cases hreg : registryLookup registry nm with
      | none => exact ⟨unknownToolMsg nm, rfl⟩
      | some f =>
        cases hargs : (objLookup callinfo argumentsKey).getD (Json.obj []) with
        | obj kwargs =>
          cases hf : f kwargs with
          | ok r => exact ⟨r, by simp [hreg, hargs, hf]⟩
          | error e => exact ⟨executingErrorMsg nm e, by simp [hreg, hargs, hf]⟩
        | null => exact ⟨executingErrorMsg nm starStarTypeError, by simp [hreg, hargs]⟩
        | bool b => exact ⟨executingErrorMsg nm starStarTypeError, by simp [hreg, hargs]⟩
        | num t => exact ⟨executingErrorMsg nm starStarTypeError, by simp [hreg, hargs]⟩
        | str s2 => exact ⟨executingErrorMsg nm starStarTypeError, by simp [hreg, hargs]⟩
        | arr xs => exact ⟨executingErrorMsg nm starStarTypeError, by simp [hreg, hargs]⟩
    | arr xs => exact absurd hh (by simp [hashableJson])
    | obj fs => exact absurd hh (by simp [hashableJson])

/-- C5 witness: the three soft-failure cases at concrete inputs. -/
theorem C5_soft_failure_amended_witness :
    execute_tool_call [] [(argumentsKey, Json.obj [])] = .ok invalidFormatMsg ∧
    execute_tool_call [] (mkCall "ghost".data (Json.obj [])) =
      .ok (unknownToolMsg "ghost".data) ∧
    execute_tool_call [("t".data, fun _ => .error "boom".data)]
        (mkCall "t".data (Json.obj [])) =
      .ok (executingErrorMsg "t".data "boom".data) :=
  ⟨(C5_soft_failure_amended [] [(argumentsKey, Json.obj [])]).1 rfl,
   (C5_soft_failure_amended [] (mkCall "ghost".data (Json.obj []))).2.1
     "ghost".data rfl rfl,
   (C5_soft_failure_amended [("t".data, fun _ => .error "boom".data)]
       (mkCall "t".data (Json.obj []))).2.2.1
     "t".data (fun _ => .error "boom".data) [] "boom".data rfl rfl rfl rfl⟩

/-! ## Claim C9: `load_memories` on missing or malformed storage -/

/-- C9 counterexample: the file content `[]` is valid JSON but not the
expected memory document, and `load_memories` returns the parsed array as-is,
not the empty memory document. -/
theorem C9_wrong_shape_counterexample :
    load_memories (some ['[', ']']) = Json.arr [] ∧ Json.arr [] ≠ emptyMemory :=
  ⟨rfl, fun h => Json.noConfusion h⟩

/-- C9 (amended): for an absent backing file, and for content that does not
parse as JSON at all, `load_memories` returns the empty memory document and
never raises; content that parses as JSON of the wrong shape is instead
returned as parsed. -/
theorem C9_empty_state_amended (file : Option (List Char))
    (h : file = none ∨ ∃ content, file = some content ∧ json_loads content = none) :
    load_memories file = emptyMemory := by
  rcases h with h | ⟨content, hf, hp⟩
  · rw [h]; rfl
  · rw [hf]; simp [load_memories, hp]

/-- C9 witness: the amended theorem at an absent file and at non-JSON
content. -/
theorem C9_empty_state_amended_witness :
    load_memories none = emptyMemory ∧
    load_memories (some "not json".data) = emptyMemory :=
  ⟨C9_empty_state_amended none (Or.inl rfl),
   C9_empty_state_amended (some "not json".data)
     (Or.inr ⟨"not json".data, rfl, rfl⟩)⟩

/-! ## Claim C8: `remove_preference` -/

/-- C8: for every stored document that parses to a dict with a dict-valued
`preferences` entry, `remove_preference` removes an existing key from the
stored document (rewriting the file with the key deleted) and returns `True`;
for an absent key it returns `False` and leaves the stored file untouched. -/
theorem C8_remove_preference (content key : List Char)
    (doc prefs : List (List Char × Json))
    (h1 : json_loads content = some (Json.obj doc))
    (h2 : objLookup doc preferencesKey = some (Json.obj prefs)) :
    ((objLookup prefs key).isSome = true →
      remove_preference (some content) key =
        .ok (true, some (json_dumps (Json.obj (objSetItem doc preferencesKey
          (Json.obj (objDelItem prefs key))))))) ∧
    (objLookup prefs key = none →
      remove_preference (some content) key = .ok (false, some content)) := by
  constructor
  · intro hk
    simp [remove_preference, load_memories, h1, h2, hk, save_memories]
  · intro hk
    simp [remove_preference, load_memories, h1, h2, hk]

/-- C8 witness: a concrete three-field memory document with one preference;
removing `"a"` returns `True` and stores the document without it, removing
the absent `"zz"` returns `False` and leaves the file unchanged. -/
theorem C8_remove_preference_witness :
    remove_preference
      (some "\x7b\"facts\": [], \"preferences\": \x7b\"a\": 1\x7d, \"conversations\": []\x7d".data)
      "a".data =
      .ok (true, some (json_dumps (Json.obj [(factsKey, Json.arr []),
        (preferencesKey, Json.obj []), (conversationsKey, Json.arr [])]))) ∧
    remove_preference
      (some "\x7b\"facts\": [], \"preferences\": \x7b\"a\": 1\x7d, \"conversations\": []\x7d".data)
      "zz".data =
      .ok (false, some "\x7b\"facts\": [], \"preferences\": \x7b\"a\": 1\x7d, \"conversations\": []\x7d".data) := by
  constructor
  · exact (C8_remove_preference
      "\x7b\"facts\": [], \"preferences\": \x7b\"a\": 1\x7d, \"conversations\": []\x7d".data
      "a".data
      [(factsKey, Json.arr []), (preferencesKey, Json.obj [("a".data, Json.num ['1'])]),
        (conversationsKey, Json.arr [])]
      [("a".data, Json.num ['1'])] rfl rfl).1 rfl
  · exact (C8_remove_preference
      "\x7b\"facts\": [], \"preferences\": \x7b\"a\": 1\x7d, \"conversations\": []\x7d".data
      "zz".data
      [(factsKey, Json.arr []), (preferencesKey, Json.obj [("a".data, Json.num ['1'])]),
        (conversationsKey, Json.arr [])]
      [("a".data, Json.num ['1'])] rfl rfl).2 rfl

/-! ## Claim C3: extraction is total and never raises -/

/-- The pattern-1 loop body never lets its parse failure escape. -/
theorem p1CallExc_ok (g : List Char × List Char) : p1CallExc g = .ok (p1Call g) := by
  simp only [p1CallExc, p1Call, json_loads_exc]
  cases hb : pyStrip g.2 == ['{', '}'] <;>
    cases hj : json_loads g.2 <;> simp [hb, hj]

/-- The pattern-3 loop body never lets its parse failure escape. -/
theorem p3ProcessExc_ok (m : List Char) : p3ProcessExc m = .ok (p3Process m) := by
  simp only [p3ProcessExc, p3Process, json_loads_exc]
  cases hj : json_loads m with
  | none => rfl
  | some j => cases j <;> rfl

/-- The pattern-4 loop body never lets its parse failure escape. -/
theorem p4ProcessExc_ok (g : List Char × List Char) : p4ProcessExc g = .ok (p4Process g) := by
  simp only [p4ProcessExc, p4Process, json_loads_exc]
  cases hj : json_loads g.2 with
  | none => rfl
  | some j => cases j <;> rfl

/-- The pattern-5 loop body never lets its parse failure escape. -/
theorem p5ProcessExc_ok (m : List Char) : p5ProcessExc m = .ok (p5Process m) := by
  simp only [p5ProcessExc, p5Process, json_loads_exc]
  cases hj : json_loads m with
  | none => rfl
  | some j => cases j <;> rfl

/-- A pattern loop whose body always returns normally returns normally, with
the concatenation of the bodies' contributions. -/
theorem except_ok_bind {α β : Type} (x : α) (f : α → Except (List Char) β) :
    (Except.ok x >>= f) = f x := rfl

/-- Folding singleton contributions is a map. -/
theorem foldr_singleton_map {α β : Type} (f : α → β) :
    ∀ l : List α, l.foldr (fun g acc => [f g] ++ acc) [] = l.map f
  | [] => rfl
  | m :: rest => by
    rw [List.foldr_cons, foldr_singleton_map f rest, List.map_cons]
    rfl

/-- A pattern loop whose body always returns normally returns normally, with
the concatenation of the bodies' contributions. -/
theorem concatLoopExc_ok {α : Type} (body : α → Except (List Char) (List ToolCall))
    (bodyP : α → List ToolCall) (hb : ∀ a, body a = .ok (bodyP a)) :
    ∀ l : List α, concatLoopExc body l = .ok (l.foldr (fun m acc => bodyP m ++ acc) [])
  | [] => rfl
  | m :: rest => by
    rw [concatLoopExc, hb m, concatLoopExc_ok body bodyP hb rest]
    rfl

/-- C3: `extract_tool_calls` is total and never raises — run with its
exception flow explicit, extraction returns normally on every input string,
with exactly the call list of the pure function; every `json.loads` failure is
absorbed by the handler of its own loop iteration (dropping or downgrading
just that fragment). -/
theorem C3_extraction_never_raises (message : List Char) :
    extract_tool_calls_exc message = .ok (extract_tool_calls message) := by
  have h1 : ∀ g : List Char × List Char,
      ((p1CallExc g).map (fun c => [c]) : Except (List Char) (List ToolCall)) =
        .ok [p1Call g] := by
    intro g; rw [p1CallExc_ok]; rfl
  unfold extract_tool_calls_exc extract_tool_calls
  simp only [concatLoopExc_ok _ _ h1, concatLoopExc_ok _ _ p3ProcessExc_ok,
    concatLoopExc_ok _ _ p4ProcessExc_ok, concatLoopExc_ok _ _ p5ProcessExc_ok,
    except_ok_bind, foldr_singleton_map]

/-! ## Claim C4 (amended universal part): every extracted call has a name key -/

/-- Looking up a key other than `arguments` is unaffected by the arguments
default. -/
theorem objLookup_objSetItem_ne (k k2 : List Char) (v : Json)
    (hk : (k2 == k) = false) :
    ∀ fields, objLookup (objSetItem fields k2 v) k = objLookup fields k
  | [] => by simp [objSetItem, objLookup, hk]
  | (k3, v3) :: rest => by
    by_cases h3 : (k3 == k2) = true
    · have : k3 = k2 := by
        exact eq_of_beq h3
      simp [objSetItem, h3, objLookup, this, hk]
    · simp only [objSetItem, h3]
      simp only [objLookup]
      rw [objLookup_objSetItem_ne k k2 v hk rest]

/-- `ensureArguments` keeps the `name` binding intact. -/
theorem objLookup_ensureArguments_name (fields : List (List Char × Json)) :
    objLookup (ensureArguments fields) nameKey = objLookup fields nameKey := by
  unfold ensureArguments
  split
  · rfl
  · exact objLookup_objSetItem_ne nameKey argumentsKey (Json.obj []) (by decide) fields

/-- A regex-built call's name binding. -/
theorem objLookup_mkCall_name (nm : List Char) (a : Json) :
    objLookup (mkCall nm a) nameKey = some (Json.str nm) := rfl

/-- The pattern-1 loop always emits a call named by the captured group. -/
theorem objLookup_p1Call_name (g : List Char × List Char) :
    objLookup (p1Call g) nameKey = some (Json.str g.1) := by
  unfold p1Call
  split
  · rfl
  · split <;> rfl

/-- Membership in the pattern-2 fold: an element is either from the initial
accumulator or an empty-arguments call built by pattern 2. -/
theorem p2Fold_mem :
    ∀ (l : List (List Char)) (acc : List ToolCall) (c : ToolCall),
      c ∈ p2Fold acc l → c ∈ acc ∨ ∃ nm, c = mkCall nm (Json.obj [])
  | [], _, _, h => Or.inl h
  | nm :: rest, acc, c, h => by
    unfold p2Fold at h
    split at h
    · exact p2Fold_mem rest acc c h
    · rcases p2Fold_mem rest _ c h with hacc | hnew
      · rcases List.mem_append.mp hacc with h1 | h2
        · exact Or.inl h1
        · exact Or.inr ⟨nm, List.mem_singleton.mp h2⟩
      · exact Or.inr hnew

/-- The concatenating fold of the pattern-3/4/5 loops as a List.bind. -/
theorem foldr_append_eq_bind {α : Type} (f : α → List ToolCall) :
    ∀ l : List α, l.foldr (fun m acc => f m ++ acc) [] = l.flatMap f
  | [] => rfl
  | m :: rest => by
    rw [List.foldr_cons, foldr_append_eq_bind f rest]
    rfl

/-- Every call contributed by the pattern-3 loop carries a `name` key. -/
theorem p3Process_name (m : List Char) (c : ToolCall) (h : c ∈ p3Process m) :
    (objLookup c nameKey).isSome = true := by
  unfold p3Process at h
  split at h
  · rcases List.mem_filterMap.mp h with ⟨item, _, hitem⟩
    rcases item with _ | _ | _ | _ | _ | fields <;> simp at hitem
    rcases hitem with ⟨hsome, hc⟩
    rw [← hc, objLookup_ensureArguments_name]
    exact hsome
  · split at h
    · rw [List.mem_singleton.mp h, objLookup_ensureArguments_name]
      assumption
    · cases h
  · cases h
  · cases h

/-- Every call contributed by the pattern-4 loop carries a `name` key. -/
theorem p4Process_name (g : List Char × List Char) (c : ToolCall)
    (h : c ∈ p4Process g) : (objLookup c nameKey).isSome = true := by
  unfold p4Process at h
  split at h
  · split at h
    · rw [List.mem_singleton.mp h, objLookup_ensureArguments_name]
      assumption
    · cases h
  · cases h
  · rw [List.mem_singleton.mp h, objLookup_mkCall_name]
    rfl

/-- Every call contributed by the pattern-5 loop carries a `name` key. -/
theorem p5Process_name (m : List Char) (c : ToolCall) (h : c ∈ p5Process m) :
    (objLookup c nameKey).isSome = true := by
  unfold p5Process at h
  split at h
  · split at h
    · rw [List.mem_singleton.mp h, objLookup_ensureArguments_name]
      assumption
    · cases h
  · cases h
  · cases h

/-- Every call returned by `extract_tool_calls` carries a `name` key. -/
theorem extract_tool_calls_name_key (message : List Char) :
    ∀ c ∈ extract_tool_calls message, (objLookup c nameKey).isSome = true := by
  intro c h
  unfold extract_tool_calls at h
  rcases List.mem_append.mp h with h1 | h5
  rcases List.mem_append.mp h1 with h2 | h4
  rcases List.mem_append.mp h2 with h3 | h3'
  · -- patterns 1 and 2
    rcases p2Fold_mem _ _ _ h3 with hp1 | ⟨nm, hc⟩
    · rcases List.mem_map.mp hp1 with ⟨g, _, hg⟩
      rw [← hg, objLookup_p1Call_name]
      rfl
    · rw [hc, objLookup_mkCall_name]
      rfl
  · rw [foldr_append_eq_bind] at h3'
    rcases List.mem_flatMap.mp h3' with ⟨m, _, hm⟩
    exact p3Process_name m c hm
  · rw [foldr_append_eq_bind] at h4
    rcases List.mem_flatMap.mp h4 with ⟨g, _, hg⟩
    exact p4Process_name g c hg
  · rw [foldr_append_eq_bind] at h5
    rcases List.mem_flatMap.mp h5 with ⟨m, _, hm⟩
    exact p5Process_name m c hm

/-- The name group of a pattern-2 match is non-empty (`[^"]+`). -/
theorem p2MatchAt_name_ne_nil (prev : Option Char) (s nm r : List Char)
    (h : p2MatchAt prev s = some (nm, r)) : nm ≠ [] := by
  unfold p2MatchAt at h
  split at h
  · exact Option.noConfusion h
  · simp only [Option.bind_eq_bind', Option.bind_eq_some'] at h
    rcases h with ⟨s2, _, s4, _, s6, _, s8, _, h⟩
    split at h
    · exact Option.noConfusion h
    · rename_i hemp
      simp only [Option.bind_eq_some'] at h
      rcases h with ⟨s9, _, s11, _, h2⟩
      split at h2
      · exact Option.noConfusion h2
      · have hnm : List.takeWhile (fun c => c != '"') s8 = nm :=
          congrArg Prod.fst (Option.some.inj h2)
        intro hnil
        rw [hnm, hnil] at hemp
        exact hemp rfl

/-- The name group of a pattern-1 match is non-empty (`[^"]+`). -/
theorem p1MatchAt_name_ne_nil (prev : Option Char) (s : List Char)
    (g : List Char × List Char) (r : List Char)
    (h : p1MatchAt prev s = some (g, r)) : g.1 ≠ [] := by
  unfold p1MatchAt at h
  split at h
  · exact Option.noConfusion h
  · simp only [Option.bind_eq_bind', Option.bind_eq_some'] at h
    rcases h with ⟨s2, _, s4, _, s6, _, s8, _, h⟩
    split at h
    · exact Option.noConfusion h
    · rename_i hemp
      simp only [Option.bind_eq_some'] at h
      rcases h with ⟨s9, _, s11, _, s13, _, s15, _, s17, _, s18, _, s20, _, h2⟩
      split at h2
      · exact Option.noConfusion h2
      · have hnm : List.takeWhile (fun c => c != '"') s8 = g.1 :=
          congrArg (fun p => p.1.1) (Option.some.inj h2)
        intro hnil
        rw [hnm, hnil] at hemp
        exact hemp rfl

/-- C4 (amended): every ToolCall returned by `extract_tool_calls` carries a
`name` key, and the regex-captured names of the standalone patterns 1 and 2
are non-empty; but the JSON-array and tagged forms only check that the key is
present, so a returned name may be the empty string (or a non-string value). -/
theorem C4_name_field_amended (message : List Char) :
    (∀ c ∈ extract_tool_calls message, (objLookup c nameKey).isSome = true) ∧
    (∀ prev s g r, p1MatchAt prev s = some (g, r) → g.1 ≠ []) ∧
    (∀ prev s nm r, p2MatchAt prev s = some (nm, r) → nm ≠ []) :=
  ⟨extract_tool_calls_name_key message,
   fun prev s g r h => p1MatchAt_name_ne_nil prev s g r h,
   fun prev s nm r h => p2MatchAt_name_ne_nil prev s nm r h⟩

/-- C4 witness: the amended theorem applied to the concrete reply
`{"name": "x"}` and to the pattern-2 match on it. -/
theorem C4_name_field_amended_witness :
    (objLookup (mkCall "x".data (Json.obj [])) nameKey).isSome = true ∧
    "x".data ≠ [] := by
  constructor
  · refine (C4_name_field_amended "\x7b\"name\": \"x\"\x7d".data).1
      (mkCall "x".data (Json.obj [])) ?_
    have h : extract_tool_calls "\x7b\"name\": \"x\"\x7d".data =
        [mkCall "x".data (Json.obj [])] := rfl
    rw [h]
    exact List.mem_singleton_self _
  · exact (C4_name_field_amended "\x7b\"name\": \"x\"\x7d".data).2.2
      none "\x7b\"name\": \"x\"\x7d".data "x".data [] rfl

/-! ## Claim C10: the first generation ignores the supplied history -/

/-- Bind on a raised exception propagates it. -/
theorem except_error_bind {α β : Type} (e : List Char) (f : α → Except (List Char) β) :
    (Except.error e >>= f) = Except.error e := rfl

/-- C10: `completion` sends only the new user message to the first generation,
so the caller-supplied history shifts nothing but the returned transcript: the
result for any history is the result for the empty history with the supplied
history prefixed to the transcript — response, executed calls, raised
exceptions, and both generations' prompts are identical. -/
theorem C10_first_generation_history_free (model : List Char → List Char)
    (registry : ToolRegistry) (message role : List Char)
    (history : List TranscriptEntry) :
    completion model registry message role history =
      (completion model registry message role []).map
        (fun res => ⟨res.response, history ++ res.history, res.tool_calls_executed⟩) := by
  unfold completion
  cases hc : (extract_tool_calls (model message)).isEmpty
  · simp only [hc, Bool.false_eq_true, if_false]
    cases hrun : run_tool_loop registry (extract_tool_calls (model message)) with
    | error e => simp [hrun, except_error_bind, Except.map]
    | ok executed =>
      simp only [hrun, except_ok_bind]
      cases hfu : buildFollowUp executed with
      | error e => simp [hfu, except_error_bind, Except.map]
      | ok followUp => simp [hfu, except_ok_bind, Except.map]
  · simp [hc, Except.map]

/-! ## Claim C7: the transcript is append-only -/

/-- C7: whenever `completion` returns, the caller-supplied history is an
unmodified prefix of the returned transcript, extended chronologically by the
user message, the first assistant reply, then (when calls ran) one tool entry
per executed call and the final assistant reply. -/
theorem C7_transcript_append_only (model : List Char → List Char)
    (registry : ToolRegistry) (message role : List Char)
    (history : List TranscriptEntry) (r : CompletionResult)
    (h : completion model registry message role history = .ok r) :
    (extract_tool_calls (model message) = [] ∧ r.tool_calls_executed = [] ∧
      r.history = history ++
        [mkMsg role message, mkMsg "assistant".data (model message)]) ∨
    (∃ final, r.history = history ++
        [mkMsg role message, mkMsg "assistant".data (model message)]
        ++ r.tool_calls_executed.map (fun p => toolEntry p.1 p.2)
        ++ [mkMsg "assistant".data final]) := by
  unfold completion at h
  cases hc : (extract_tool_calls (model message)).isEmpty
  · simp only [hc, Bool.false_eq_true, if_false] at h
    cases hrun : run_tool_loop registry (extract_tool_calls (model message)) with
    | error e => rw [hrun, except_error_bind] at h; exact Except.noConfusion h
    | ok executed =>
      rw [hrun, except_ok_bind] at h
      cases hfu : buildFollowUp executed with
      | error e => rw [hfu, except_error_bind] at h; exact Except.noConfusion h
      | ok followUp =>
        rw [hfu, except_ok_bind] at h
        have hr := Except.ok.inj h
        right
        refine ⟨model followUp, ?_⟩
        rw [← hr]
        simp [List.append_assoc]
  · simp only [hc, if_true] at h
    have hr := Except.ok.inj h
    left
    rw [← hr]
    refine ⟨List.isEmpty_iff.mp hc, rfl, ?_⟩
    simp [List.append_assoc]

/-- C7 witness: a run with no tool calls on a one-entry prior history. -/
theorem C7_transcript_append_only_witness :
    (extract_tool_calls ((fun _ => "hello".data) "hi".data) = [] ∧
      ([] : List (ToolCall × List Char)) = [] ∧
      [mkMsg "user".data "prior".data, mkMsg "user".data "hi".data,
        mkMsg "assistant".data "hello".data] =
        [mkMsg "user".data "prior".data] ++
          [mkMsg "user".data "hi".data,
            mkMsg "assistant".data ((fun _ => "hello".data) "hi".data)]) ∨
    (∃ final,
      [mkMsg "user".data "prior".data, mkMsg "user".data "hi".data,
        mkMsg "assistant".data "hello".data] =
        [mkMsg "user".data "prior".data] ++
          [mkMsg "user".data "hi".data,
            mkMsg "assistant".data ((fun _ => "hello".data) "hi".data)]
          ++ ([] : List (ToolCall × List Char)).map (fun p => toolEntry p.1 p.2)
          ++ [mkMsg "assistant".data final]) :=
  C7_transcript_append_only (fun _ => "hello".data) [] "hi".data "user".data
    [mkMsg "user".data "prior".data]
    ⟨"hello".data,
      [mkMsg "user".data "prior".data, mkMsg "user".data "hi".data,
        mkMsg "assistant".data "hello".data], []⟩ rfl

/-! ## Claim C6: the tool-call branch of `completion` -/

/-- When every extracted call executes without an escaping exception, the tool
loop returns normally, pairing the calls in extraction order with their result
strings. -/
theorem run_tool_loop_ok (registry : ToolRegistry) :
    ∀ calls : List ToolCall,
      (∀ c ∈ calls, ∃ s, execute_tool_call registry c = .ok s) →
      ∃ executed, run_tool_loop registry calls = .ok executed ∧
        executed.map Prod.fst = calls ∧
        ∀ p ∈ executed, execute_tool_call registry p.1 = .ok p.2
  | [], _ => ⟨[], rfl, rfl, by simp⟩
  | c :: rest, h => by
    obtain ⟨s, hs⟩ := h c (List.mem_cons_self c rest)
    obtain ⟨tail, htail, hfst, hres⟩ :=
      run_tool_loop_ok registry rest (fun c2 h2 => h c2 (List.mem_cons_of_mem c h2))
    refine ⟨(c, s) :: tail, ?_, ?_, ?_⟩
    · rw [run_tool_loop, hs, except_ok_bind, htail, except_ok_bind]
    · simp [hfst]
    · intro p hp
      rcases List.mem_cons.mp hp with hp1 | hp2
      · rw [hp1]; exact hs
      · exact hres p hp2

/-- When every executed call carries a `name` key, the line comprehension
returns one rendered line per call. -/
theorem buildLines_ok :
    ∀ executed : List (ToolCall × List Char),
      (∀ p ∈ executed, (objLookup p.1 nameKey).isSome = true) →
      ∃ lines, buildLines executed = .ok lines ∧
        ∀ p ∈ executed, ∃ nv, objLookup p.1 nameKey = some nv ∧
          toolLineText nv p.2 ∈ lines
  | [], _ => ⟨[], rfl, by simp⟩
  | p :: rest, h => by
    obtain ⟨nv, hnv⟩ := Option.isSome_iff_exists.mp (h p (List.mem_cons_self p rest))
    obtain ⟨lines, hl, hmem⟩ :=
      buildLines_ok rest (fun q hq => h q (List.mem_cons_of_mem p hq))
    refine ⟨toolLineText nv p.2 :: lines, ?_, ?_⟩
    · rw [buildLines]
      have hline : toolResultLine p.1 p.2 = .ok (toolLineText nv p.2) := by
        simp [toolResultLine, hnv]
      rw [hline, except_ok_bind, hl, except_ok_bind]
    · intro q hq
      rcases List.mem_cons.mp hq with hq1 | hq2
      · exact ⟨nv, by rw [hq1]; exact hnv, by rw [hq1]; exact List.mem_cons_self _ _⟩
      · obtain ⟨nv2, hnv2, hmem2⟩ := hmem q hq2
        exact ⟨nv2, hnv2, List.mem_cons_of_mem _ hmem2⟩

/-- Every element of a newline join is a contiguous piece of it. -/
theorem joinNl_decomp :
    ∀ (lines : List (List Char)) (x : List Char), x ∈ lines →
      ∃ pre post, joinNl lines = pre ++ x ++ post
  | [], x, h => absurd h (List.not_mem_nil x)
  | [y], x, h => by
    rw [List.mem_singleton.mp h]
    exact ⟨[], [], by simp [joinNl]⟩
  | y :: z :: rest, x, h => by
    rcases List.mem_cons.mp h with h1 | h2
    · refine ⟨[], '\n' :: joinNl (z :: rest), ?_⟩
      rw [h1]
      simp [joinNl]
    · obtain ⟨pre, post, hpp⟩ := joinNl_decomp (z :: rest) x h2
      refine ⟨y ++ '\n' :: pre, post, ?_⟩
      show y ++ '\n' :: joinNl (z :: rest) = (y ++ '\n' :: pre) ++ x ++ post
      rw [hpp]
      simp

/-- C6 (amended): when the first reply contains tool calls and every extracted
call executes without an escaping exception (its name, when present, is
hashable), `completion` executes each call in extraction order, appends one
tool-role entry per call recording the call's name value and result string,
sends a follow-up prompt containing the line `Tool '<name>' returned:
<result>` for every executed call, and appends and returns the second reply
together with the transcript and the executed-call list. -/
theorem C6_tool_branch_amended (model : List Char → List Char)
    (registry : ToolRegistry) (message role : List Char)
    (history : List TranscriptEntry)
    (hne : extract_tool_calls (model message) ≠ [])
    (hexec : ∀ c ∈ extract_tool_calls (model message),
      ∃ s, execute_tool_call registry c = .ok s) :
    ∃ executed followUp,
      run_tool_loop registry (extract_tool_calls (model message)) = .ok executed ∧
      executed.map Prod.fst = extract_tool_calls (model message) ∧
      (∀ p ∈ executed, execute_tool_call registry p.1 = .ok p.2) ∧
      buildFollowUp executed = .ok followUp ∧
      (∀ p ∈ executed, ∃ nv pre post, objLookup p.1 nameKey = some nv ∧
        followUp = pre ++ toolLineText nv p.2 ++ post) ∧
      completion model registry message role history =
        .ok ⟨model followUp,
          history ++ [mkMsg role message, mkMsg "assistant".data (model message)]
            ++ executed.map (fun p => toolEntry p.1 p.2)
            ++ [mkMsg "assistant".data (model followUp)],
          executed⟩ := by
  obtain ⟨executed, hrun, hfst, hres⟩ :=
    run_tool_loop_ok registry (extract_tool_calls (model message)) hexec
  have hname : ∀ p ∈ executed, (objLookup p.1 nameKey).isSome = true := by
    intro p hp
    refine extract_tool_calls_name_key (model message) p.1 ?_
    rw [← hfst]
    exact List.mem_map_of_mem Prod.fst hp
  obtain ⟨lines, hlines, hlmem⟩ := buildLines_ok executed hname
  have hfu : buildFollowUp executed = .ok (joinNl lines ++ followUpInstruction) := by
    unfold buildFollowUp
    rw [hlines, except_ok_bind]
  refine ⟨executed, joinNl lines ++ followUpInstruction, hrun, hfst, hres, hfu, ?_, ?_⟩
  · intro p hp
    obtain ⟨nv, hnv, hmem⟩ := hlmem p hp
    obtain ⟨pre, post, hpp⟩ := joinNl_decomp lines (toolLineText nv p.2) hmem
    refine ⟨nv, pre, post ++ followUpInstruction, hnv, ?_⟩
    rw [hpp]
    simp
  · have hc : (extract_tool_calls (model message)).isEmpty = false := by
      cases hcc : (extract_tool_calls (model message)).isEmpty
      · rfl
      · exact absurd (List.isEmpty_iff.mp hcc) hne
    unfold completion
    simp only [hc, Bool.false_eq_true, if_false]
    rw [hrun, except_ok_bind, hfu, except_ok_bind]
    simp [List.append_assoc]

/-- C6 witness: the end-to-end time scenario — a model whose first reply is
the tagged `getCurrentTime` call, a registry returning `03:15 PM`. -/
theorem C6_tool_branch_amended_witness :
    ∃ executed followUp,
      run_tool_loop [("getCurrentTime".data, fun _ => .ok "03:15 PM".data)]
        (extract_tool_calls
          "<tool_call>\x7b\"name\": \"getCurrentTime\", \"arguments\": \x7b\x7d\x7d</tool_call>".data)
        = .ok executed ∧
      executed.map Prod.fst = extract_tool_calls
        "<tool_call>\x7b\"name\": \"getCurrentTime\", \"arguments\": \x7b\x7d\x7d</tool_call>".data ∧
      (∀ p ∈ executed,
        execute_tool_call [("getCurrentTime".data, fun _ => .ok "03:15 PM".data)] p.1
          = .ok p.2) ∧
      buildFollowUp executed = .ok followUp ∧
      (∀ p ∈ executed, ∃ nv pre post, objLookup p.1 nameKey = some nv ∧
        followUp = pre ++ toolLineText nv p.2 ++ post) ∧
      completion
        (fun _ =>
          "<tool_call>\x7b\"name\": \"getCurrentTime\", \"arguments\": \x7b\x7d\x7d</tool_call>".data)
        [("getCurrentTime".data, fun _ => .ok "03:15 PM".data)]
        "What time is it?".data "user".data [] =
        .ok ⟨followUp |> (fun _ =>
            "<tool_call>\x7b\"name\": \"getCurrentTime\", \"arguments\": \x7b\x7d\x7d</tool_call>".data),
          [] ++ [mkMsg "user".data "What time is it?".data,
            mkMsg "assistant".data
              "<tool_call>\x7b\"name\": \"getCurrentTime\", \"arguments\": \x7b\x7d\x7d</tool_call>".data]
            ++ executed.map (fun p => toolEntry p.1 p.2)
            ++ [mkMsg "assistant".data
              "<tool_call>\x7b\"name\": \"getCurrentTime\", \"arguments\": \x7b\x7d\x7d</tool_call>".data],
          executed⟩ := by
  have hne : extract_tool_calls
      "<tool_call>\x7b\"name\": \"getCurrentTime\", \"arguments\": \x7b\x7d\x7d</tool_call>".data
      ≠ [] := by
    intro h
    exact absurd (congrArg List.length h) (by decide)
  have hexec : ∀ c ∈ extract_tool_calls
      "<tool_call>\x7b\"name\": \"getCurrentTime\", \"arguments\": \x7b\x7d\x7d</tool_call>".data,
      ∃ s, execute_tool_call [("getCurrentTime".data, fun _ => .ok "03:15 PM".data)] c
        = .ok s := by
    intro c hc
    have hx : extract_tool_calls
        "<tool_call>\x7b\"name\": \"getCurrentTime\", \"arguments\": \x7b\x7d\x7d</tool_call>".data =
        [mkCall "getCurrentTime".data (Json.obj []),
         mkCall "getCurrentTime".data (Json.obj [])] := rfl
    rw [hx] at hc
    rcases List.mem_cons.mp hc with h1 | h2
    · exact ⟨"03:15 PM".data, by rw [h1]; rfl⟩
    · rw [List.mem_singleton.mp h2]
      exact ⟨"03:15 PM".data, rfl⟩
  exact C6_tool_branch_amended
    (fun _ =>
      "<tool_call>\x7b\"name\": \"getCurrentTime\", \"arguments\": \x7b\x7d\x7d</tool_call>".data)
    [("getCurrentTime".data, fun _ => .ok "03:15 PM".data)]
    "What time is it?".data "user".data [] hne hexec

/-! ## Claim C1: the universal part for standalone fragments -/

/-- Monadic bind on `some`. -/
theorem option_some_bind {α β : Type} (x : α) (f : α → Option β) :
    (some x >>= f) = f x := rfl

/-- Monadic bind on `none`. -/
theorem option_none_bind {α β : Type} (f : α → Option β) :
    ((none : Option α) >>= f) = none := rfl

/-- `[^X]*` maximal munch: `takeWhile` over a prefix avoiding the stop
character ends exactly at the stop. -/
theorem takeWhile_stop_append (stop : Char) :
    ∀ l rest : List Char, (∀ c ∈ l, (c == stop) = false) →
      List.takeWhile (fun c => c != stop) (l ++ stop :: rest) = l
  | [], rest, _ => by simp [List.takeWhile_cons]
  | c :: t, rest, h => by
    have hc : (c == stop) = false := h c (List.mem_cons_self c t)
    have hbne : (c != stop) = true := by simp [bne, hc]
    rw [List.cons_append, List.takeWhile_cons, hbne]
    simp only [if_true]
    rw [takeWhile_stop_append stop t rest (fun c2 h2 => h c2 (List.mem_cons_of_mem c h2))]

/-- The pattern-1 matcher accepts a standalone fragment at its start,
capturing exactly the name and the braced body and consuming the whole
fragment. -/
theorem p1MatchAt_fragment (N B : List Char) (hN : N ≠ [])
    (hNq : ∀ c ∈ N, (c == '"') = false) (hBq : ∀ c ∈ B, (c == '}') = false) :
    p1MatchAt none (standaloneFragment N B) = some ((N, '{' :: B ++ ['}']), []) := by
  have hNe : N.isEmpty = false := by
    cases N with
    | nil => exact absurd rfl hN
    | cons c t => rfl
  unfold p1MatchAt standaloneFragment
  simp +decide only [pyDropWs, List.dropWhile, isPyWs, matchLit,
    takeWhile_stop_append '"' N _ hNq, takeWhile_stop_append '}' B _ hBq,
    List.drop_left, hNe, option_some_bind, option_none_bind,
    Bool.false_eq_true, if_false, if_true, List.head?]

/-- Unpacking the body character class. -/
theorem bodyOK_props (c : Char) (h : bodyOK c = true) :
    (c == '{') = false ∧ (c == '}') = false ∧ (c == '[') = false ∧
    (c == ']') = false ∧ (c == '<') = false ∧ (c == Char.ofNat 96) = false := by
  unfold bodyOK at h
  simp only [Bool.and_eq_true, Bool.not_eq_true'] at h
  exact ⟨h.1.1.1.1.1, h.1.1.1.1.2, h.1.1.1.2, h.1.1.2, h.1.2, h.2⟩

/-- Unpacking the name character class. -/
theorem nameOK_props (c : Char) (h : nameOK c = true) :
    bodyOK c = true ∧ (c == '"') = false ∧ isPyWs c = false := by
  unfold nameOK at h
  simp only [Bool.and_eq_true, Bool.not_eq_true'] at h
  exact ⟨h.1.1, h.1.2, h.2⟩

/-- Backtick normalisation is the identity on backtick-free text. -/
theorem normalizeQuotes_id (s : List Char)
    (h : ∀ c ∈ s, (c == Char.ofNat 96) = false) : normalizeQuotes s = s := by
  unfold normalizeQuotes
  rw [List.map_congr_left (g := id) (fun c hc => by simp [h c hc]), List.map_id]

/-- The pattern-2 matcher fails outright when no brace follows the leading
whitespace. -/
theorem p2MatchAt_none_of_noOpen (s : List Char)
    (h : matchLit ['{'] (pyDropWs s) = none) :
    ∀ prev, p2MatchAt prev s = none := by
  intro prev
  unfold p2MatchAt
  split
  · rfl
  · simp only [h, option_none_bind]

/-- A literal without braces cannot match across a closing brace, and so
fails on `u ++ '}' :: v` whenever it does not match at the head of `u`. -/
theorem matchLit_stop_brace :
    ∀ (pat u : List Char), (∀ ch ∈ pat, (ch == '}') = false) →
      startsWithSeq pat u = false →
      ∀ v, matchLit pat (u ++ '}' :: v) = none
  | [], u, _, hu, v => by
    unfold startsWithSeq matchLit at hu
    cases u <;> simp at hu
  | p :: ps, [], hpat, _, v => by
    have hp : (p == '}') = false := hpat p (List.mem_cons_self p ps)
    have hp2 : ('}' == p) = false := by
      cases hb : '}' == p
      · rfl
      · rw [eq_of_beq hb] at hp
        rw [BEq.refl] at hp
        exact Bool.noConfusion hp
    simp [matchLit, hp2]
  | p :: ps, c :: u, hpat, hu, v => by
    simp only [List.cons_append, matchLit]
    cases hc : c == p
    · simp
    · simp only [if_true]
      refine matchLit_stop_brace ps u
        (fun ch h2 => hpat ch (List.mem_cons_of_mem p h2)) ?_ v
      unfold startsWithSeq at hu ⊢
      rw [matchLit] at hu
      rw [hc] at hu
      simpa using hu

/-- Inside a bracket-free body that avoids the literal `"name"`, the literal
cannot be matched after skipping whitespace, up to and across the closing
brace. -/
theorem matchLit_nameLit_body :
    ∀ B : List Char, (∀ c ∈ B, bodyOK c = true) → containsSeq nameLit B = false →
      ∀ v, matchLit nameLit (pyDropWs (B ++ '}' :: v)) = none
  | [], _, _, v => by simp [pyDropWs, List.dropWhile, isPyWs, matchLit]
  | c :: t, hB, hn, v => by
    have hcont : containsSeq nameLit t = false ∧ startsWithSeq nameLit (c :: t) = false := by
      unfold containsSeq at hn
      simp only [Bool.or_eq_false_iff] at hn
      exact ⟨hn.2, hn.1⟩
    cases hw : isPyWs c
    · rw [List.cons_append, show pyDropWs (c :: (t ++ '}' :: v)) = c :: (t ++ '}' :: v) by
        simp [pyDropWs, List.dropWhile, hw]]
      rw [show c :: (t ++ '}' :: v) = (c :: t) ++ '}' :: v by simp]
      exact matchLit_stop_brace nameLit (c :: t) (by decide) hcont.2 v
    · rw [List.cons_append, show pyDropWs (c :: (t ++ '}' :: v)) = pyDropWs (t ++ '}' :: v) by
        simp [pyDropWs, List.dropWhile, hw]]
      exact matchLit_nameLit_body t (fun c2 h2 => hB c2 (List.mem_cons_of_mem c h2)) hcont.1 v

/-- After its opening brace, pattern 2 demands the literal `"name"`; a
fragment's argument body cannot supply it. -/
theorem p2MatchAt_none_at_open (B : List Char) (hB : ∀ c ∈ B, bodyOK c = true)
    (hn : containsSeq nameLit B = false) (v : List Char) (s : List Char)
    (hs : pyDropWs s = '{' :: (B ++ '}' :: v)) :
    ∀ prev, p2MatchAt prev s = none := by
  intro prev
  unfold p2MatchAt
  split
  · rfl
  · simp only [hs,
      show matchLit ['{'] ('{' :: (B ++ '}' :: v)) = some (B ++ '}' :: v) from rfl,
      option_some_bind, matchLit_nameLit_body B hB hn v, option_none_bind]

/-- Skipping whitespace in a bracket-free body never uncovers an opening
brace (the first non-whitespace character is a body character or the closing
brace). -/
theorem noOpen_through_body :
    ∀ B : List Char, (∀ c ∈ B, bodyOK c = true) →
      ∀ v, matchLit ['{'] (pyDropWs (B ++ '}' :: v)) = none
  | [], _, v => by simp [pyDropWs, List.dropWhile, isPyWs, matchLit]
  | c :: t, hB, v => by
    cases hw : isPyWs c
    · have hc : (c == '{') = false := (bodyOK_props c (hB c (List.mem_cons_self c t))).1
      rw [List.cons_append, show pyDropWs (c :: (t ++ '}' :: v)) = c :: (t ++ '}' :: v) by
        simp [pyDropWs, List.dropWhile, hw]]
      simp [matchLit, hc]
    · rw [List.cons_append, show pyDropWs (c :: (t ++ '}' :: v)) = pyDropWs (t ++ '}' :: v) by
        simp [pyDropWs, List.dropWhile, hw]]
      exact noOpen_through_body t (fun c2 h2 => hB c2 (List.mem_cons_of_mem c h2)) v

/-- Pattern 2 fails at the very start of a standalone fragment: after the
name's closing quote it demands an immediate `}`, but the fragment continues
with the comma before `"arguments"`. -/
theorem p2MatchAt_fragment_start (N B : List Char)
    (hNq : ∀ c ∈ N, (c == '"') = false) :
    ∀ prev, p2MatchAt prev (standaloneFragment N B) = none := by
  intro prev
  unfold p2MatchAt standaloneFragment
  split
  · rfl
  · simp +decide only [pyDropWs, List.dropWhile, isPyWs, matchLit,
      takeWhile_stop_append '"' N _ hNq, List.drop_left,
      option_some_bind, option_none_bind, if_true, if_false, ite_self]

/-- A suffix of `u ++ v` is a nonempty suffix of `u` glued to `v`, or a
suffix of `v`. -/
theorem suffix_append_cases {α : Type} {s u v : List α} (h : s <:+ u ++ v) :
    (∃ u2, u2 <:+ u ∧ u2 ≠ [] ∧ s = u2 ++ v) ∨ s <:+ v := by
  induction u with
  | nil => exact Or.inr (by simpa using h)
  | cons c t ih =>
    rcases List.suffix_cons_iff.mp (by simpa using h) with h1 | h2
    · exact Or.inl ⟨c :: t, List.suffix_refl _, by simp, by simpa using h1⟩
    · rcases ih h2 with ⟨u2, hsu, hne, he⟩ | hv
      · exact Or.inl ⟨u2, hsu.trans (List.suffix_cons c t), hne, he⟩
      · exact Or.inr hv

/-- Pattern 2 matches nowhere inside a standalone fragment. -/
theorem p2MatchAt_fragment_suffix (N B : List Char)
    (hNok : ∀ c ∈ N, nameOK c = true) (hBok : ∀ c ∈ B, bodyOK c = true)
    (hBname : containsSeq nameLit B = false) :
    ∀ (prev : Option Char) (s : List Char),
      s <:+ standaloneFragment N B → p2MatchAt prev s = none := by
  have hNq : ∀ c ∈ N, (c == '"') = false := fun c hc => (nameOK_props c (hNok c hc)).2.1
  intro prev s hs
  have hfrag : standaloneFragment N B =
      ['{', '"', 'n', 'a', 'm', 'e', '"', ':', ' ', '"'] ++
        (N ++ (['"', ',', ' ', '"', 'a', 'r', 'g', 'u', 'm', 'e', 'n', 't', 's',
          '"', ':', ' ', '{'] ++ (B ++ ['}', '}']))) := rfl
  rw [hfrag] at hs
  rcases suffix_append_cases hs with ⟨u2, hu2, hne, rfl⟩ | hs2
  · -- a nonempty suffix of the literal prefix up to the name's opening quote
    clear hs
    rcases List.suffix_cons_iff.mp hu2 with rfl | hu2
    · rw [← hfrag]
      exact p2MatchAt_fragment_start N B hNq prev
    rcases List.suffix_cons_iff.mp hu2 with rfl | hu2
    · exact p2MatchAt_none_of_noOpen _ (by simp +decide [pyDropWs, List.dropWhile, isPyWs, matchLit]) prev
    rcases List.suffix_cons_iff.mp hu2 with rfl | hu2
    · exact p2MatchAt_none_of_noOpen _ (by simp +decide [pyDropWs, List.dropWhile, isPyWs, matchLit]) prev
    rcases List.suffix_cons_iff.mp hu2 with rfl | hu2
    · exact p2MatchAt_none_of_noOpen _ (by simp +decide [pyDropWs, List.dropWhile, isPyWs, matchLit]) prev
    rcases List.suffix_cons_iff.mp hu2 with rfl | hu2
    · exact p2MatchAt_none_of_noOpen _ (by simp +decide [pyDropWs, List.dropWhile, isPyWs, matchLit]) prev
    rcases List.suffix_cons_iff.mp hu2 with rfl | hu2
    · exact p2MatchAt_none_of_noOpen _ (by simp +decide [pyDropWs, List.dropWhile, isPyWs, matchLit]) prev
    rcases List.suffix_cons_iff.mp hu2 with rfl | hu2
    · exact p2MatchAt_none_of_noOpen _ (by simp +decide [pyDropWs, List.dropWhile, isPyWs, matchLit]) prev
    rcases List.suffix_cons_iff.mp hu2 with rfl | hu2
    · exact p2MatchAt_none_of_noOpen _ (by simp +decide [pyDropWs, List.dropWhile, isPyWs, matchLit]) prev
    rcases List.suffix_cons_iff.mp hu2 with rfl | hu2
    · exact p2MatchAt_none_of_noOpen _ (by simp +decide [pyDropWs, List.dropWhile, isPyWs, matchLit]) prev
    rcases List.suffix_cons_iff.mp hu2 with rfl | hu2
    · exact p2MatchAt_none_of_noOpen _ (by simp +decide [pyDropWs, List.dropWhile, isPyWs, matchLit]) prev
    exact absurd (List.suffix_nil.mp hu2) hne
  rcases suffix_append_cases hs2 with ⟨n2, hn2, hne2, rfl⟩ | hs3
  · -- a nonempty suffix of the name
    cases n2 with
    | nil => exact absurd rfl hne2
    | cons c t =>
      obtain ⟨hb, _, hw⟩ := nameOK_props c (hNok c (hn2.subset (List.mem_cons_self c t)))
      have hopen : (c == '{') = false := (bodyOK_props c hb).1
      exact p2MatchAt_none_of_noOpen _
        (by simp [pyDropWs, List.dropWhile, hw, matchLit, hopen]) prev
  rcases suffix_append_cases hs3 with ⟨s2, hsu, hne3, rfl⟩ | hs4
  · -- a nonempty suffix of the literal between the name and the body
    clear hs hs2 hs3
    rcases List.suffix_cons_iff.mp hsu with rfl | hsu
    · exact p2MatchAt_none_of_noOpen _ (by simp +decide [pyDropWs, List.dropWhile, isPyWs, matchLit]) prev
    rcases List.suffix_cons_iff.mp hsu with rfl | hsu
    · exact p2MatchAt_none_of_noOpen _ (by simp +decide [pyDropWs, List.dropWhile, isPyWs, matchLit]) prev
    rcases List.suffix_cons_iff.mp hsu with rfl | hsu
    · exact p2MatchAt_none_of_noOpen _ (by simp +decide [pyDropWs, List.dropWhile, isPyWs, matchLit]) prev
    rcases List.suffix_cons_iff.mp hsu with rfl | hsu
    · exact p2MatchAt_none_of_noOpen _ (by simp +decide [pyDropWs, List.dropWhile, isPyWs, matchLit]) prev
    rcases List.suffix_cons_iff.mp hsu with rfl | hsu
    · exact p2MatchAt_none_of_noOpen _ (by simp +decide [pyDropWs, List.dropWhile, isPyWs, matchLit]) prev
    rcases List.suffix_cons_iff.mp hsu with rfl | hsu
    · exact p2MatchAt_none_of_noOpen _ (by simp +decide [pyDropWs, List.dropWhile, isPyWs, matchLit]) prev
    rcases List.suffix_cons_iff.mp hsu with rfl | hsu
    · exact p2MatchAt_none_of_noOpen _ (by simp +decide [pyDropWs, List.dropWhile, isPyWs, matchLit]) prev
    rcases List.suffix_cons_iff.mp hsu with rfl | hsu
    · exact p2MatchAt_none_of_noOpen _ (by simp +decide [pyDropWs, List.dropWhile, isPyWs, matchLit]) prev
    rcases List.suffix_cons_iff.mp hsu with rfl | hsu
    · exact p2MatchAt_none_of_noOpen _ (by simp +decide [pyDropWs, List.dropWhile, isPyWs, matchLit]) prev
    rcases List.suffix_cons_iff.mp hsu with rfl | hsu
    · exact p2MatchAt_none_of_noOpen _ (by simp +decide [pyDropWs, List.dropWhile, isPyWs, matchLit]) prev
    rcases List.suffix_cons_iff.mp hsu with rfl | hsu
    · exact p2MatchAt_none_of_noOpen _ (by simp +decide [pyDropWs, List.dropWhile, isPyWs, matchLit]) prev
    rcases List.suffix_cons_iff.mp hsu with rfl | hsu
    · exact p2MatchAt_none_of_noOpen _ (by simp +decide [pyDropWs, List.dropWhile, isPyWs, matchLit]) prev
    rcases List.suffix_cons_iff.mp hsu with rfl | hsu
    · exact p2MatchAt_none_of_noOpen _ (by simp +decide [pyDropWs, List.dropWhile, isPyWs, matchLit]) prev
    rcases List.suffix_cons_iff.mp hsu with rfl | hsu
    · exact p2MatchAt_none_of_noOpen _ (by simp +decide [pyDropWs, List.dropWhile, isPyWs, matchLit]) prev
    rcases List.suffix_cons_iff.mp hsu with rfl | hsu
    · exact p2MatchAt_none_of_noOpen _ (by simp +decide [pyDropWs, List.dropWhile, isPyWs, matchLit]) prev
    rcases List.suffix_cons_iff.mp hsu with rfl | hsu
    · -- the space directly before the body's opening brace
      exact p2MatchAt_none_at_open B hBok hBname ['}'] _
        (by simp +decide [pyDropWs, List.dropWhile, isPyWs]) prev
    rcases List.suffix_cons_iff.mp hsu with rfl | hsu
    · -- the body's opening brace itself
      exact p2MatchAt_none_at_open B hBok hBname ['}'] _
        (by simp +decide [pyDropWs, List.dropWhile, isPyWs]) prev
    exact absurd (List.suffix_nil.mp hsu) hne3
  rcases suffix_append_cases hs4 with ⟨b2, hbu, hne4, rfl⟩ | hs5
  · -- a nonempty suffix of the body
    have hball : ∀ c ∈ b2, bodyOK c = true := fun c hc => hBok c (hbu.subset hc)
    exact p2MatchAt_none_of_noOpen _ (noOpen_through_body b2 hball ['}']) prev
  · -- a suffix of the closing braces
    rcases List.suffix_cons_iff.mp hs5 with rfl | hs5
    · exact p2MatchAt_none_of_noOpen _ (by simp +decide [pyDropWs, List.dropWhile, isPyWs, matchLit]) prev
    rcases List.suffix_cons_iff.mp hs5 with rfl | hs5
    · exact p2MatchAt_none_of_noOpen _ (by simp +decide [pyDropWs, List.dropWhile, isPyWs, matchLit]) prev
    rw [List.suffix_nil.mp hs5]
    exact p2MatchAt_none_of_noOpen _ (by simp [pyDropWs, List.dropWhile, matchLit]) prev

/-- A scan whose matcher fails on every suffix finds nothing. -/
theorem scanPrev_eq_nil_of {α : Type}
    (matchAt : Option Char → List Char → Option (α × List Char)) (T : List Char)
    (hfail : ∀ prev s, s <:+ T → matchAt prev s = none) :
    ∀ (fuel : Nat) (prev : Option Char) (s : List Char), s <:+ T →
      scanPrev matchAt fuel prev s = []
  | 0, _, _, _ => rfl
  | fuel + 1, prev, s, hs => by
    cases s with
    | nil => simp [scanPrev, hfail prev [] hs]
    | cons c t =>
      rw [scanPrev, hfail prev (c :: t) hs]
      exact scanPrev_eq_nil_of matchAt T hfail fuel (some c) t
        ((List.suffix_cons c t).trans hs)

/-- A scan whose matcher fails on every suffix finds nothing. -/
theorem scanPlain_eq_nil_of {α : Type}
    (matchAt : List Char → Option (α × List Char)) (T : List Char)
    (hfail : ∀ s, s <:+ T → matchAt s = none) :
    ∀ (fuel : Nat) (s : List Char), s <:+ T → scanPlain matchAt fuel s = []
  | 0, _, _ => rfl
  | fuel + 1, s, hs => by
    cases s with
    | nil => simp [scanPlain, hfail [] hs]
    | cons c t =>
      rw [scanPlain, hfail (c :: t) hs]
      exact scanPlain_eq_nil_of matchAt T hfail fuel t
        ((List.suffix_cons c t).trans hs)

/-- A body character can open none of the other patterns. -/
theorem bodyOK_no_collision (c : Char) (h : bodyOK c = true) :
    (c == '[') = false ∧ (c == '<') = false ∧ (c == Char.ofNat 96) = false := by
  obtain ⟨_, _, h3, _, h5, h6⟩ := bodyOK_props c h
  exact ⟨h3, h5, h6⟩

/-- Character classification of a standalone fragment: besides its fixed
punctuation and the letters of `name` and `arguments`, every character comes
from the name or the body. -/
theorem standaloneFragment_no_collision (N B : List Char)
    (hNok : ∀ c ∈ N, nameOK c = true) (hBok : ∀ c ∈ B, bodyOK c = true) :
    ∀ c ∈ standaloneFragment N B,
      (c == '[') = false ∧ (c == '<') = false ∧ (c == Char.ofNat 96) = false := by
  intro c hc
  unfold standaloneFragment at hc
  simp only [List.mem_cons, List.mem_append, List.mem_singleton,
    List.not_mem_nil, or_false] at hc
  rcases hc with rfl | rfl | rfl | rfl | rfl | rfl | rfl | rfl | rfl | rfl | hmem | rfl | rfl
    | rfl | rfl | rfl | rfl | rfl | rfl | rfl | rfl | rfl | rfl | rfl | rfl | rfl | rfl | rfl
    | hmem | rfl | rfl
  all_goals first
    | decide
    | (refine bodyOK_no_collision c ?_
       first
         | exact (nameOK_props c (hNok c hmem)).1
         | exact hBok c hmem)

/-- The pattern-1 matcher needs input. -/
theorem p1MatchAt_nil (prev : Option Char) : p1MatchAt prev [] = none := by
  unfold p1MatchAt
  split
  · rfl
  · rfl

/-- A literal fails on input avoiding its first character. -/
theorem matchLit_cons_head_ne (p : Char) (ps : List Char) :
    ∀ s : List Char, (∀ c ∈ s, (c == p) = false) → matchLit (p :: ps) s = none
  | [], _ => rfl
  | c :: t, h => by simp [matchLit, h c (List.mem_cons_self c t)]

/-- Pattern 3 needs an opening bracket. -/
theorem p3MatchAt_none_of (s : List Char) (h : matchLit ['['] s = none) :
    p3MatchAt s = none := by
  unfold p3MatchAt
  simp only [h, option_none_bind]

/-- Pattern 4 needs an opening bracket. -/
theorem p4MatchAt_none_of (s : List Char) (h : matchLit ['[', '"'] s = none) :
    p4MatchAt s = none := by
  unfold p4MatchAt
  simp only [h, option_none_bind]

/-- Pattern 5 needs its opening tag. -/
theorem p5MatchAt_none_of (s : List Char) (h : matchLit "<tool_call>".data s = none) :
    p5MatchAt s = none := by
  unfold p5MatchAt
  simp only [h, option_none_bind]

/-- Stripping does nothing to a braced body. -/
theorem dropTrailWs_append_nonws (l : List Char) (c : Char) (hc : isPyWs c = false) :
    dropTrailWs (l ++ [c]) = l ++ [c] := by
  unfold dropTrailWs
  rw [List.reverse_append]
  simp [List.dropWhile, hc]

/-- `str.strip` leaves a braced argument text unchanged. -/
theorem pyStrip_braced (B : List Char) :
    pyStrip ('{' :: B ++ ['}']) = '{' :: B ++ ['}'] := by
  unfold pyStrip
  rw [show pyDropWs ('{' :: B ++ ['}']) = '{' :: B ++ ['}'] by
    simp +decide [pyDropWs, List.dropWhile, isPyWs]]
  rw [show '{' :: B ++ ['}'] = ('{' :: B) ++ ['}'] by simp]
  exact dropTrailWs_append_nonws ('{' :: B) '}' (by decide)

/-- The pattern-1 loop body on a fragment's captured groups produces exactly
the parsed call. -/
theorem p1Call_fragment (N B : List Char) (J : Json)
    (hJ : json_loads ('{' :: B ++ ['}']) = some J) :
    p1Call (N, '{' :: B ++ ['}']) = mkCall N J := by
  unfold p1Call
  cases hstrip : pyStrip ('{' :: B ++ ['}']) == ['{', '}']
  · simp only [hstrip, Bool.false_eq_true, if_false]
    rw [hJ]
  · rw [pyStrip_braced B] at hstrip
    have heq := eq_of_beq hstrip
    injection heq with h1 hb
    have hBnil : B = [] := by
      cases B with
      | nil => rfl
      | cons c t => simp at hb
    subst hBnil
    have hJ2 : J = Json.obj [] := by
      have h2 : some (Json.obj []) = some J := by rw [← hJ]; rfl
      exact (Option.some.inj h2).symm
    simp only [hstrip, if_true, hJ2]

/-- One step of a scan at a position where the matcher fires. -/
theorem scanPrev_step {α : Type}
    (matchAt : Option Char → List Char → Option (α × List Char))
    (f : Nat) (prev : Option Char) (s : List Char) (g : α) (rest : List Char)
    (h : matchAt prev s = some (g, rest)) :
    scanPrev matchAt (f + 1) prev s = g :: scanPrev matchAt f (some '}') rest := by
  simp only [scanPrev, h]

/-- C1 (amended): for every non-empty name over the name alphabet and every
argument body over the body alphabet (no braces, brackets, tag openers or
backticks, and not containing the literal `"name"`) that parses as a JSON
object, extraction of the standalone fragment `{"name": N, "arguments": {B}}`
yields exactly one ToolCall, with name `N` and arguments exactly the parsed
object.  (Argument objects whose text contains an inner `}` — nested objects
in particular — are instead truncated by the `[^}]*` capture and downgraded to
empty arguments, as the counterexample shows.) -/
theorem C1_standalone_fragment_amended (N B : List Char) (J : Json)
    (hN : N ≠ []) (hNok : ∀ c ∈ N, nameOK c = true)
    (hBok : ∀ c ∈ B, bodyOK c = true)
    (hBname : containsSeq nameLit B = false)
    (hJ : json_loads ('{' :: B ++ ['}']) = some J) :
    extract_tool_calls (standaloneFragment N B) = [mkCall N J] := by
  have hNq : ∀ c ∈ N, (c == '"') = false :=
    fun c hc => (nameOK_props c (hNok c hc)).2.1
  have hBq : ∀ c ∈ B, (c == '}') = false :=
    fun c hc => (bodyOK_props c (hBok c hc)).2.1
  have hchars := standaloneFragment_no_collision N B hNok hBok
  have hnorm : normalizeQuotes (standaloneFragment N B) = standaloneFragment N B :=
    normalizeQuotes_id _ (fun c hc => (hchars c hc).2.2)
  have hp1 : scanPrev p1MatchAt ((standaloneFragment N B).length + 1) none
      (standaloneFragment N B) = [(N, '{' :: B ++ ['}'])] := by
    rw [scanPrev_step p1MatchAt _ none _ _ _ (p1MatchAt_fragment N B hN hNq hBq)]
    rw [scanPrev_eq_nil_of p1MatchAt []
      (fun prev s hs => by rw [List.suffix_nil.mp hs]; exact p1MatchAt_nil prev)
      _ _ _ (List.suffix_refl [])]
  have hp2 : scanPrev p2MatchAt ((standaloneFragment N B).length + 1) none
      (standaloneFragment N B) = [] :=
    scanPrev_eq_nil_of p2MatchAt (standaloneFragment N B)
      (p2MatchAt_fragment_suffix N B hNok hBok hBname) _ none _
      (List.suffix_refl _)
  have hnb : ∀ c ∈ standaloneFragment N B, (c == '[') = false :=
    fun c hc => (hchars c hc).1
  have hnt : ∀ c ∈ standaloneFragment N B, (c == '<') = false :=
    fun c hc => (hchars c hc).2.1
  have hp3 : scanPlain p3MatchAt ((standaloneFragment N B).length + 1)
      (standaloneFragment N B) = [] :=
    scanPlain_eq_nil_of p3MatchAt (standaloneFragment N B)
      (fun s hs => p3MatchAt_none_of s
        (matchLit_cons_head_ne '[' [] s (fun c hc => hnb c (hs.subset hc))))
      _ _ (List.suffix_refl _)
  have hp4 : scanPlain p4MatchAt ((standaloneFragment N B).length + 1)
      (standaloneFragment N B) = [] :=
    scanPlain_eq_nil_of p4MatchAt (standaloneFragment N B)
      (fun s hs => p4MatchAt_none_of s
        (matchLit_cons_head_ne '[' ['"'] s (fun c hc => hnb c (hs.subset hc))))
      _ _ (List.suffix_refl _)
  have hp5 : scanPlain p5MatchAt ((standaloneFragment N B).length + 1)
      (standaloneFragment N B) = [] :=
    scanPlain_eq_nil_of p5MatchAt (standaloneFragment N B)
      (fun s hs => p5MatchAt_none_of s
        (matchLit_cons_head_ne '<' "tool_call>".data s
          (fun c hc => hnt c (hs.subset hc))))
      _ _ (List.suffix_refl _)
  unfold extract_tool_calls
  simp only [hnorm, hp1, hp2, hp3, hp4, hp5, List.map_cons, List.map_nil,
    List.foldr_nil, List.append_nil]
  rw [show p2Fold [p1Call (N, '{' :: B ++ ['}'])] [] =
      [p1Call (N, '{' :: B ++ ['}'])] from rfl]
  rw [p1Call_fragment N B J hJ]

/-- C1 witness: the amended theorem at the concrete fragment
`{"name": "f", "arguments": {"a": 1}}`. -/
theorem C1_standalone_fragment_amended_witness :
    extract_tool_calls (standaloneFragment "f".data "\"a\": 1".data) =
      [mkCall "f".data (Json.obj [("a".data, Json.num ['1'])])] :=
  C1_standalone_fragment_amended "f".data "\"a\": 1".data
    (Json.obj [("a".data, Json.num ['1'])])
    (by decide) (by decide) (by decide) (by decide) rfl

/-- C6 counterexample: when the first reply is `[{"name": {}}]`, the single
extracted call has a dict-valued name, executing it raises, and the whole
orchestration turn aborts instead of appending tool entries and producing a
final response. -/
theorem C6_unhashable_call_counterexample :
    completion (fun _ => "[\x7b\"name\": \x7b\x7d\x7d]".data) [] "hi".data
      "user".data [] = .error unhashableTypeError := rfl
